import Mathlib

set_option linter.unusedVariables false

namespace PrimitiveMetadata

mutual
/-- An RDF object value (`RdfObject` in primitive_rdf.py): an iri string,
an integer, a literal (`Datum`: unicode value with language iris, modelling
the frozenset of language iris as a list in iteration order), or a blank
node (a frozenset of (predicate, object) twoples, modelled as a list in
iteration order). -/
inductive RdfObj where
  | iri (s : String)
  | litInt (n : Int)
  | lit (value : String) (languageIris : List String)
  | blank (twoples : Twoples)
deriving DecidableEq, Repr

/-- The twoples of a blank node, as a list in frozenset-iteration order. -/
inductive Twoples where
  | nil
  | cons (pred : String) (obj : RdfObj) (rest : Twoples)
deriving DecidableEq, Repr
end

mutual
/-- A tidy pathset (`TidyPathset` in primitive_rdf.py): a finite tree of
predicate iris, modelled as the dict's (key, subtree) entries in insertion
order. -/
inductive Pathset where
  | node (entries : PathEntries)
deriving DecidableEq, Repr

inductive PathEntries where
  | nil
  | cons (pred : String) (sub : Pathset) (rest : PathEntries)
deriving DecidableEq, Repr
end

/-- The entries of a pathset node. -/
def Pathset.entries : Pathset → PathEntries
  | .node es => es

/-- Python truthiness of a pathset dict: `if _next_pathset:` is false exactly
for the empty dict. -/
def Pathset.isEmpty : Pathset → Bool
  | .node .nil => true
  | _ => false

/-- `pathset.get(pred)`: first entry with the given key (dict keys are
unique by construction of tidy pathsets; first-match models dict lookup). -/
def PathEntries.get : PathEntries → String → Option Pathset
  | .nil, _ => none
  | .cons p sub rest, q => if p = q then some sub else rest.get q

/-- `pathset.keys()` in insertion order. -/
def PathEntries.keys : PathEntries → List String
  | .nil => []
  | .cons p _ rest => p :: rest.keys

/-- A single-predicate pathset `{pred: {}}`, the tidy form of a bare
predicate string (`tidy_pathset` on a `str`). -/
def pathsetOne (pred : String) : Pathset :=
  .node (.cons pred (.node .nil) .nil)

/-- First value bound to a key in an association list (Python dict lookup;
dicts are modelled as association lists in insertion order). -/
def assocGet {β : Type} (l : List (String × β)) (k : String) : Option β :=
  match l with
  | [] => none
  | (k', v) :: rest => if k' = k then some v else assocGet rest k

/-- Replace the value at an existing key, keeping its position (Python dict
update of a present key). -/
def assocSet {β : Type} (l : List (String × β)) (k : String) (v : β) : List (String × β) :=
  match l with
  | [] => []
  | (k', v') :: rest => if k' = k then (k, v) :: rest else (k', v') :: assocSet rest k v

/-- Python `frozenset`/`set` equality between two lists read as sets:
same members, ignoring order and multiplicity. -/
def setEqB {α : Type} [DecidableEq α] (a b : List α) : Bool :=
  a.all (fun x => b.contains x) && b.all (fun x => a.contains x)

/-- `min(iris, key=len)` (`Focus.single_iri`): the first element of minimal
length in the iteration order of the set; Python's `min` keeps the earliest
element on ties.  The empty case is a `ValueError` in the source and is
outside the modelled runs; it returns `""` here. -/
def minByLen (l : List String) : String :=
  match l with
  | [] => ""
  | x :: xs => xs.foldl (fun acc y => if y.length < acc.length then y else acc) x

/-- The strict ordering of `choose_one_iri`'s key `(len(iri), iri)`:
shorter first, ties broken alphabetically. -/
def iriKeyLt (a b : String) : Prop :=
  a.length < b.length ∨ (a.length = b.length ∧ a < b)

instance (a b : String) : Decidable (iriKeyLt a b) := by
  unfold iriKeyLt; infer_instance

/-- `choose_one_iri` (primitive_rdf.py): `min(iris, key=lambda iri: (len(iri), iri))`
— shortest first, ties broken alphabetically (Python's `min` keeps the
earliest element on full key ties, which for this injective key means equal
strings). -/
def choose_one_iri (l : List String) : String :=
  match l with
  | [] => ""
  | x :: xs => xs.foldl (fun acc y => if iriKeyLt y acc then y else acc) x

/-- `Focus` (gather.py): a named tuple of three frozensets, each modelled as
a list in iteration order.  `type_iris` holds whatever RDF objects the graph
recorded as types (the runtime content of `frozenset(self.q(iri, RDF.type))`),
and `gatherer_kwargset` holds (name, value) pairs with string values (the
string-valued fragment of `frozenset[tuple[str, Any]]`). -/
structure Focus where
  iris : List String
  type_iris : List RdfObj
  gatherer_kwargset : List (String × String)
deriving DecidableEq, Repr

/-- Python `==` on `Focus`: NamedTuple equality compares all three fields,
each a frozenset compared as a set. -/
def Focus.pyEq (a b : Focus) : Bool :=
  setEqB a.iris b.iris && setEqB a.type_iris b.type_iris
    && setEqB a.gatherer_kwargset b.gatherer_kwargset

/-- `Focus.single_iri`: `min(self.iris, key=len)` — choose the shortest iri. -/
def Focus.single_iri (f : Focus) : String :=
  minByLen f.iris

/-- `RDF.type` from the `RDF` iri namespace. -/
def RDF_type : String := "http://www.w3.org/1999/02/22-rdf-syntax-ns#type"

/-- `OWL.sameAs`. -/
def OWL_sameAs : String := "http://www.w3.org/2002/07/owl#sameAs"

/-- `RDF.Seq`. -/
def RDF_Seq : String := "http://www.w3.org/1999/02/22-rdf-syntax-ns#Seq"

/-- `RDF.Bag`. -/
def RDF_Bag : String := "http://www.w3.org/1999/02/22-rdf-syntax-ns#Bag"

/-- `RDF.Alt`. -/
def RDF_Alt : String := "http://www.w3.org/1999/02/22-rdf-syntax-ns#Alt"

/-- `RDF.Container`. -/
def RDF_Container : String := "http://www.w3.org/1999/02/22-rdf-syntax-ns#Container"

/-- `RDF['_']`, the namespace of positional container predicates
`rdf:_1, rdf:_2, ...`. -/
def RDF_indexNs : String := "http://www.w3.org/1999/02/22-rdf-syntax-ns#_"

/-- `(pred, obj) in bnode` membership over the twople list. -/
def Twoples.hasTwople : Twoples → String → RdfObj → Bool
  | .nil, _, _ => false
  | .cons p o rest, p', o' => (p = p' && o = o') || rest.hasTwople p' o'

/-- `Focus.as_rdf_tripleset`: `(iri, rdf:type, t)` for each type and
`(iri, owl:sameAs, s)` for each other synonym, with `iri = single_iri()`. -/
def Focus.as_rdf_tripleset (f : Focus) : List (String × String × RdfObj) :=
  let i := f.single_iri
  f.type_iris.map (fun t => (i, RDF_type, t))
    ++ (f.iris.filter (fun s => s ≠ i)).map (fun s => (i, OWL_sameAs, RdfObj.iri s))

/-- `is_container` (primitive_rdf.py): any of the four container type
markers appears as an `(rdf:type, marker)` twople. -/
def is_container (b : Twoples) : Bool :=
  b.hasTwople RDF_type (.iri RDF_Seq) || b.hasTwople RDF_type (.iri RDF_Bag)
    || b.hasTwople RDF_type (.iri RDF_Alt) || b.hasTwople RDF_type (.iri RDF_Container)

/-- The characters start with the given namespace characters and the
remainder is a nonempty digit string. -/
def isIndexSuffixOf : List Char → List Char → Bool
  | [], rest => !rest.isEmpty && rest.all Char.isDigit
  | _ :: _, [] => false
  | c :: cs, d :: ds => c == d && isIndexSuffixOf cs ds

/-- `int(IriNamespace.name(pred, namespace=RDF['_']))` succeeds: the
predicate starts with the positional namespace and the remainder parses as
an integer (modelled as a nonempty digit string). -/
def isIndexedPred (p : String) : Bool :=
  isIndexSuffixOf RDF_indexNs.data p.data

/-- `container_objects` (via `_enumerate_container`): the objects of all
twoples whose predicate is a positional `rdf:_n` predicate, in twople
order. -/
def container_objects : Twoples → List RdfObj
  | .nil => []
  | .cons p o rest =>
      if isIndexedPred p then o :: container_objects rest
      else container_objects rest

/-- A mutable set of RDF objects (`set[RdfObject]`), as a list in insertion
order; `add` deduplicates. -/
abbrev Objset := List RdfObj

/-- `RdfTwopleDictionary`: predicate iri → object set. -/
abbrev Twopledict := List (String × Objset)

/-- `RdfTripleDictionary`: subject iri → twople dictionary. -/
abbrev Tripledict := List (String × Twopledict)

/-- `set.add` on an object set: append unless already present. -/
def objsetAdd (objs : Objset) (o : RdfObj) : Objset :=
  if objs.contains o then objs else objs ++ [o]

/-- Add one (pred, obj) into a twople dictionary:
`twopledict.setdefault(pred, set()).add(obj)`. -/
def twopledictAdd (tw : Twopledict) (p : String) (o : RdfObj) : Twopledict :=
  match assocGet tw p with
  | none => tw ++ [(p, [o])]
  | some objs => assocSet tw p (objsetAdd objs o)

/-- `RdfGraph.add` / `TripledictWrapper.add_triple`:
`tripledict.setdefault(subj, dict()).setdefault(pred, set()).add(obj)`. -/
def tripledictAdd (g : Tripledict) (s p : String) (o : RdfObj) : Tripledict :=
  match assocGet g s with
  | none => g ++ [(s, [(p, [o])])]
  | some tw => assocSet g s (twopledictAdd tw p o)

/-- The grouping fold behind `twopledict_from_twopleset`. -/
def twopledictGroup : Twoples → Twopledict → Twopledict
  | .nil, acc => acc
  | .cons p o rest, acc => twopledictGroup rest (twopledictAdd acc p o)

/-- `twopledict_from_twopleset` (primitive_rdf.py): group a blank node's
twoples into predicate → object-set. -/
def twopledict_from_twopleset (b : Twoples) : Twopledict :=
  twopledictGroup b []

mutual
/-- `RdfGraph._iter_twopledict_objects` (primitive_rdf.py): walk a tidy
pathset over a twople dictionary; at the end of a path yield the object
set, otherwise descend into iri-subjects (via the graph) and blank nodes
(via their grouped twoples), skipping other values.  The generator is
modelled eagerly; `fuel` bounds recursion depth and every recursive call
decrements it (all runs in this development use ample fuel). -/
def iterTwopledictObjects (g : Tripledict) (fuel : Nat) (tw : Twopledict) :
    PathEntries → List RdfObj
  | .nil => []
  | .cons pred sub rest =>
      match fuel with
      | 0 => []
      | fuel + 1 =>
          let objset := (assocGet tw pred).getD []
          let here :=
            if sub.isEmpty then objset
            else peekObjsWalk g fuel objset sub
          here ++ iterTwopledictObjects g fuel tw rest

/-- The inner loop of `_iter_twopledict_objects`: walk each object of the
object set when there is more path. -/
def peekObjsWalk (g : Tripledict) (fuel : Nat) (objs : List RdfObj)
    (sub : Pathset) : List RdfObj :=
  match fuel with
  | 0 => []
  | fuel + 1 =>
      match objs with
      | [] => []
      | o :: rest =>
          (match o with
           | .iri s => iterTwopledictObjects g fuel ((assocGet g s).getD []) sub.entries
           | .blank b => iterTwopledictObjects g fuel (twopledict_from_twopleset b) sub.entries
           | _ => []) ++ peekObjsWalk g fuel rest sub
end

/-- `RdfGraph.q` / `TripledictWrapper.q`: query the objects a (tidy)
pathset leads to from a subject iri. -/
def cacheQ (g : Tripledict) (fuel : Nat) (subj : String) (ps : Pathset) :
    List RdfObj :=
  iterTwopledictObjects g fuel ((assocGet g subj).getD []) ps.entries

/-- `_GatherCache.peek` with a `Focus`: query from its `single_iri()`. -/
def cachePeekFocus (g : Tripledict) (fuel : Nat) (f : Focus) (ps : Pathset) :
    List RdfObj :=
  cacheQ g fuel f.single_iri ps

/-- `_GathererSignup` (gather.py): gatherers indexed by predicate iri and by
focustype iri, plus the two wildcard buckets.  Gatherers are identified by
numeric ids (Python compares gatherer functions by identity); the `set`s of
gatherers are lists in insertion order, deduplicated on add. -/
structure Signup where
  by_predicate : List (String × List Nat)
  by_focustype : List (String × List Nat)
  for_any_predicate : List Nat
  for_any_focustype : List Nat
deriving DecidableEq, Repr

/-- The empty signup (`_GathererSignup.__init__`). -/
def Signup.empty : Signup :=
  ⟨[], [], [], []⟩

/-- `set.add` on a gatherer set. -/
def gathererSetAdd (gs : List Nat) (g : Nat) : List Nat :=
  if gs.contains g then gs else gs ++ [g]

/-- `d.setdefault(iri, set()).add(gatherer)` on one index dictionary. -/
def signupIndexAdd (d : List (String × List Nat)) (k : String) (g : Nat) :
    List (String × List Nat) :=
  match assocGet d k with
  | none => d ++ [(k, [g])]
  | some gs => assocSet d k (gathererSetAdd gs g)

/-- `_GathererSignup.add_gatherer`: index under every given predicate iri
(or the any-predicate wildcard when none are given), and likewise for
focustype iris.  It is total: no emptiness check is made. -/
def Signup.add_gatherer (s : Signup) (g : Nat)
    (predicate_iris focustype_iris : List String) : Signup :=
  let s1 :=
    if predicate_iris.isEmpty then
      { s with for_any_predicate := gathererSetAdd s.for_any_predicate g }
    else
      { s with by_predicate :=
          predicate_iris.foldl (fun d i => signupIndexAdd d i g) s.by_predicate }
  if focustype_iris.isEmpty then
    { s1 with for_any_focustype := gathererSetAdd s1.for_any_focustype g }
  else
    { s1 with by_focustype :=
        focustype_iris.foldl (fun d i => signupIndexAdd d i g) s1.by_focustype }

/-- One axis's union in `get_gatherers`:
`itertools.chain(*(by_iri.get(iri, frozenset()) for iri in iris), for_any)`. -/
def axisChain (d : List (String × List Nat)) (iris : List String)
    (anySet : List Nat) : List Nat :=
  (iris.map (fun i => (assocGet d i).getD [])).flatten ++ anySet

/-- `_GathererSignup.get_gatherers`: the predicate-axis union (deduplicated
into a set) intersected with the focustype-axis union
(`gatherer_set.intersection_update`).  The focus's `type_iris` are runtime
RDF objects; only iri strings can match the string-keyed index. -/
def Signup.get_gatherers (s : Signup) (f : Focus)
    (predicate_iris : List String) : List Nat :=
  let axis1 := (axisChain s.by_predicate predicate_iris s.for_any_predicate).dedup
  let typeStrs := f.type_iris.filterMap
    (fun t => match t with | .iri ts => some ts | _ => none)
  let axis2 := axisChain s.by_focustype typeStrs s.for_any_focustype
  axis1.filter (fun g => axis2.contains g)

/-- `add_gatherer` from src/gather/gatherer.py: the registry keyed by
`(focustype or None, predicate or None)`; the leading
`assert (predicate_iris or focustype_iris)` is modelled as an error
result. -/
def legacyAddGatherer
    (reg : List ((Option String × Option String) × List Nat)) (g : Nat)
    (predicate_iris focustype_iris : List String) :
    Except String (List ((Option String × Option String) × List Nat)) :=
  if predicate_iris.isEmpty ∧ focustype_iris.isEmpty then
    .error "cannot register gatherer without either predicate_iris or focustype_iris"
  else
    let focustype_keys :=
      if focustype_iris.isEmpty then [(none : Option String)]
      else focustype_iris.map some
    let predicate_keys :=
      if predicate_iris.isEmpty then [(none : Option String)]
      else predicate_iris.map some
    .ok <|
      (focustype_keys.map (fun ft => predicate_keys.map (fun p => (ft, p)))).flatten.foldl
        (fun r key =>
          match r.lookup key with
          | none => r ++ [(key, [g])]
          | some gs =>
              r.map (fun e => if e.1 = key then (key, gathererSetAdd gs g) else e))
        reg

/-- A subject yielded by a gatherer: `Union[str, Focus]` (the `None` case is
carried by the surrounding `Option`). -/
inductive YSubj where
  | iriS (s : String)
  | focusS (f : Focus)
deriving DecidableEq, Repr

/-- An object yielded by a gatherer: `Union[RdfObject, Focus]`. -/
inductive YObj where
  | objO (o : RdfObj)
  | focusO (f : Focus)
deriving DecidableEq, Repr

/-- One item yielded by a gatherer function (`GathererYield`): a twople
`(pred, obj)`, a triple `(subj, pred, obj)` (each position possibly `None`),
or a tuple of some other length `n ∉ {2, 3}` — for such tuples the tidier
only observes the length before raising, so only the length is carried. -/
inductive GatherYield where
  | two (p : Option String) (o : Option YObj)
  | three (s : Option YSubj) (p : Option String) (o : Option YObj)
  | badTuple (n : Nat)
deriving DecidableEq, Repr

/-- Errors the engine can surface, as values: `GatherException` (with its
label), `ValueError`, an exception raised by a gatherer function partway
through its iteration, and exhaustion of the recursion-depth fuel of this
model (no Python counterpart; all modelled runs use ample fuel). -/
inductive GErr where
  | gatherExc (label : String)
  | valueErr
  | gathererRaised
  | fuelOut
deriving DecidableEq, Repr

/-- The `None not in triple` filter and subject-filling step of
`GatheringOrganizer.__make_triple_gatherer`, after arity dispatch:
a triple with any `None` position yields no fact (`ok none`). -/
def tidy3 (s : Option YSubj) (p : Option String) (o : Option YObj) :
    Except GErr (Option (YSubj × String × YObj)) :=
  match s, p, o with
  | some s', some p', some o' => .ok (some (s', p', o'))
  | _, _, _ => .ok none

/-- `GatheringOrganizer.__make_triple_gatherer`, per yielded item: a
3-tuple is unpacked; a 2-tuple gets `focus.single_iri()` as subject; any
other length raises `ValueError`; then `None`-containing triples are
silently dropped. -/
def tidyTriple (f : Focus) : GatherYield → Except GErr (Option (YSubj × String × YObj))
  | .two p o => tidy3 (some (.iriS f.single_iri)) p o
  | .three s p o => tidy3 s p o
  | .badTuple _ => .error .valueErr

/-- `{**self.gatherer_kwargs, **dict(focus.gatherer_kwargset)}`: merged
keyword arguments, later pairs overriding earlier keys. -/
def mergeKwargs (base extra : List (String × String)) : List (String × String) :=
  base.filter (fun kv => (assocGet extra kv.1).isNone) ++ extra

/-- `GatheringOrganizer.validate_gatherer_kwargnames`:
`frozenset(kwargs.keys()) != self.gatherer_kwargnames` raises. -/
def validateKwargnames (kwargnames : List String)
    (kwargs : List (String × String)) : Bool :=
  setEqB (kwargs.map (fun kv => kv.1)) kwargnames

/-- The mutable state owned by one `Gathering` / `_GatherCache`: the triple
dictionary, the memo set of completed `(gatherer, focus)` pairs, the set of
focus values already merged, and (as proof instrumentation only) the log of
actual gatherer invocations in order. -/
structure GState where
  tripledict : Tripledict
  gathers_done : List (Nat × Focus)
  focus_set : List Focus
  invocations : List (Nat × Focus)
deriving DecidableEq, Repr

/-- The empty cache (`_GatherCache.__init__`). -/
def GState.empty : GState :=
  ⟨[], [], [], []⟩

/-- Python `(gatherer, focus) in gathers_done`: set membership by value
equality (tuples of a function, compared by identity, and a `Focus`,
compared as a NamedTuple of frozensets). -/
def memGathersDone (done : List (Nat × Focus)) (g : Nat) (f : Focus) : Bool :=
  done.any (fun e => e.1 == g && Focus.pyEq e.2 f)

/-- `focus in self.focus_set`: set membership by `Focus` value equality. -/
def memFocusSet (fs : List Focus) (f : Focus) : Bool :=
  fs.any (fun x => Focus.pyEq x f)

/-- `_GatherCache.add_focus`: if the focus is not yet in the focus set, add
it and record its `as_rdf_tripleset()` (whose positions are plain values,
so the unwrap step of `add_triple` is the identity on them). -/
def add_focus (st : GState) (f : Focus) : GState :=
  if memFocusSet st.focus_set f then st
  else
    let st := { st with focus_set := st.focus_set ++ [f] }
    { st with
        tripledict :=
          f.as_rdf_tripleset.foldl
            (fun g t => tripledictAdd g t.1 t.2.1 t.2.2) st.tripledict }

/-- `_GatherCache.add_triple`: unwrap a `Focus` in subject position (adding
its identity facts and substituting its `single_iri()`), then likewise for
the object, then insert into the triple dictionary. -/
def cacheAddTriple (st : GState) (t : YSubj × String × YObj) : GState :=
  let sp : String × GState :=
    match t.1 with
    | .iriS s => (s, st)
    | .focusS f => (f.single_iri, add_focus st f)
  let op : RdfObj × GState :=
    match t.2.2 with
    | .objO o => (o, sp.2)
    | .focusO f => (.iri f.single_iri, add_focus sp.2 f)
  { op.2 with tripledict := tripledictAdd op.2.tripledict sp.1 t.2.1 op.1 }

/-- `_GatherCache.get_focus_by_iri`: read the recorded types of an iri
(raising `GatherException` when there are none), collect its `owl:sameAs`
synonyms, and build a fresh `Focus` (with empty kwargset, as the `focus()`
convenience does).  Non-string members of the sameAs object set (which
would make the source's later `min(..., key=len)` raise `TypeError`) are
outside the modelled fragment and are filtered here. -/
def get_focus_by_iri (g : Tripledict) (fuel : Nat) (i : String) :
    Except GErr Focus :=
  let type_iris := (cacheQ g fuel i (pathsetOne RDF_type)).dedup
  if type_iris.isEmpty then .error (.gatherExc "cannot-get-focus")
  else
    let same_iris := cacheQ g fuel i (pathsetOne OWL_sameAs)
    let iris :=
      (i :: same_iris.filterMap
        (fun o => match o with | .iri s => some s | _ => none)).dedup
    .ok { iris := iris, type_iris := type_iris, gatherer_kwargset := [] }

/-- `_GatherCache.already_gathered` with `pls_mark_done=True`: report
whether the pair is memoized and mark it done if it was not. -/
def already_gathered (st : GState) (g : Nat) (f : Focus) : Bool × GState :=
  if memGathersDone st.gathers_done g f then (true, st)
  else (false, { st with gathers_done := st.gathers_done ++ [(g, f)] })

/-- A `Gathering` as configured by its organizer: the signup, the behavior
of each registered gatherer function (by id: the list of items it yields on
a focus and kwargs, and whether it raises after exhausting them), the
organizer's `gatherer_kwargnames`, and this gathering's `gatherer_kwargs`. -/
structure Gathering where
  signup : Signup
  run : Nat → Focus → List (String × String) → List GatherYield × Bool
  gatherer_kwargnames : List String
  gatherer_kwargs : List (String × String)

/-- The add-each-tidied-triple loop of `Gathering.__maybe_gather`'s
`for triple in gatherer(...)`: tidy each yielded item, dropping `None`-
containing ones, inserting the rest, and aborting on `ValueError`. -/
def addYieldsLoop (st : GState) (f : Focus) :
    List GatherYield → GState × Option GErr
  | [] => (st, none)
  | y :: rest =>
      match tidyTriple f y with
      | .error e => (st, some e)
      | .ok none => addYieldsLoop st f rest
      | .ok (some t) => addYieldsLoop (cacheAddTriple st t) f rest

/-- `Gathering.__maybe_gather`: skip when `(gatherer, focus)` is memoized;
otherwise the pair is marked done first, then the wrapped gatherer runs:
kwargname validation (inside `_triple_gatherer`, before the gatherer body),
then the gatherer body's yields are tidied and inserted one by one; an
exception from the body after its yields propagates.  The invocation log
records each actual entry into a gatherer body. -/
def maybe_gather (G : Gathering) (st : GState) (g : Nat) (f : Focus) :
    GState × Option GErr :=
  match already_gathered st g f with
  | (true, st1) => (st1, none)
  | (false, st1) =>
      if !validateKwargnames G.gatherer_kwargnames
          (mergeKwargs G.gatherer_kwargs f.gatherer_kwargset) then
        (st1, some (.gatherExc "invalid-gatherer-kwargs"))
      else
        match addYieldsLoop
            { st1 with invocations := st1.invocations ++ [(g, f)] } f
            (G.run g f (mergeKwargs G.gatherer_kwargs f.gatherer_kwargset)).1
          with
        | (st3, some e) => (st3, some e)
        | (st3, none) =>
            if (G.run g f
                  (mergeKwargs G.gatherer_kwargs f.gatherer_kwargset)).2 then
              (st3, some .gathererRaised)
            else (st3, none)

mutual
/-- `Gathering.__gather_by_pathset`: gather this level's predicates, then
recurse through each entry with a nonempty nested pathset.  `fuel` bounds
recursion depth (each mutually recursive call decrements it; all modelled
runs use ample fuel). -/
def gather_by_pathset (G : Gathering) (fuel : Nat) (ps : Pathset) (f : Focus)
    (st : GState) : GState × Option GErr :=
  match fuel with
  | 0 => (st, some .fuelOut)
  | fuel + 1 =>
      match gather_predicate_iris G fuel f ps.entries.keys st with
      | (st, some e) => (st, some e)
      | (st, none) => gatherEntriesLoop G fuel ps.entries f st

/-- The `for _pred, _next_pathset in pathset.items()` loop of
`__gather_by_pathset`: entries with an empty nested pathset are skipped;
otherwise peek this predicate's objects and gather through each. -/
def gatherEntriesLoop (G : Gathering) (fuel : Nat) (entries : PathEntries)
    (f : Focus) (st : GState) : GState × Option GErr :=
  match fuel with
  | 0 => (st, some .fuelOut)
  | fuel + 1 =>
      match entries with
      | .nil => (st, none)
      | .cons pred sub rest =>
          if sub.isEmpty then gatherEntriesLoop G fuel rest f st
          else
            let objs := cachePeekFocus st.tripledict fuel f (pathsetOne pred)
            match gatherObjsLoop G fuel sub objs st with
            | (st, some e) => (st, some e)
            | (st, none) => gatherEntriesLoop G fuel rest f st

/-- The `for _obj in self.cache.peek(...)` loop: gather through each object
in turn (the lazily-peeked objects are modelled as a snapshot list). -/
def gatherObjsLoop (G : Gathering) (fuel : Nat) (sub : Pathset)
    (objs : List RdfObj) (st : GState) : GState × Option GErr :=
  match fuel with
  | 0 => (st, some .fuelOut)
  | fuel + 1 =>
      match objs with
      | [] => (st, none)
      | o :: rest =>
          match gather_thru_object G fuel sub o st with
          | (st, some e) => (st, some e)
          | (st, none) => gatherObjsLoop G fuel sub rest st

/-- `Gathering.__gather_thru_object`: an iri is resolved to a focus
(`GatherException` is caught: not a usable focus, return silently) and
gathered recursively; a blank node that is a container is passed through
transparently with the same pathset; other blank nodes recurse into the
twoples whose predicate has a nonempty nested pathset; all other values are
ignored. -/
def gather_thru_object (G : Gathering) (fuel : Nat) (ps : Pathset)
    (o : RdfObj) (st : GState) : GState × Option GErr :=
  match fuel with
  | 0 => (st, some .fuelOut)
  | fuel + 1 =>
      match o with
      | .iri s =>
          match get_focus_by_iri st.tripledict fuel s with
          | .error _ => (st, none)
          | .ok f' => gather_by_pathset G fuel ps f' (add_focus st f')
      | .blank b =>
          if is_container b then
            gatherObjsLoop G fuel ps (container_objects b) st
          else gatherTwoplesLoop G fuel ps b st
      | _ => (st, none)

/-- The `for _pred, _obj in obj` loop over a non-container blank node:
recurse into each twople whose predicate is in the pathset with a nonempty
nested pathset. -/
def gatherTwoplesLoop (G : Gathering) (fuel : Nat) (ps : Pathset)
    (b : Twoples) (st : GState) : GState × Option GErr :=
  match fuel with
  | 0 => (st, some .fuelOut)
  | fuel + 1 =>
      match b with
      | .nil => (st, none)
      | .cons pred o rest =>
          match ps.entries.get pred with
          | some sub =>
              if sub.isEmpty then gatherTwoplesLoop G fuel ps rest st
              else
                match gather_thru_object G fuel sub o st with
                | (st, some e) => (st, some e)
                | (st, none) => gatherTwoplesLoop G fuel ps rest st
          | none => gatherTwoplesLoop G fuel ps rest st

/-- `Gathering.__gather_predicate_iris`: add the focus (and its identity
facts) to the cache, then maybe-gather with every matching gatherer. -/
def gather_predicate_iris (G : Gathering) (fuel : Nat) (f : Focus)
    (predicate_iris : List String) (st : GState) : GState × Option GErr :=
  match fuel with
  | 0 => (st, some .fuelOut)
  | fuel + 1 =>
      gatherersLoop G fuel (G.signup.get_gatherers f predicate_iris) f
        (add_focus st f)

/-- The `for gatherer in signup.get_gatherers(...)` loop. -/
def gatherersLoop (G : Gathering) (fuel : Nat) (gs : List Nat) (f : Focus)
    (st : GState) : GState × Option GErr :=
  match fuel with
  | 0 => (st, some .fuelOut)
  | fuel + 1 =>
      match gs with
      | [] => (st, none)
      | g :: rest =>
          match maybe_gather G st g f with
          | (st, some e) => (st, some e)
          | (st, none) => gatherersLoop G fuel rest f st
end

/-- `Gathering.ask` with a `Focus` argument and an already-tidy pathset:
gather by the pathset, then peek the same pathset from the same focus.
On an error the peek is not reached and the exception propagates, leaving
the mutations made so far. -/
def Gathering.ask (G : Gathering) (fuel : Nat) (ps : Pathset) (f : Focus)
    (st : GState) : List RdfObj × GState × Option GErr :=
  match gather_by_pathset G fuel ps f st with
  | (st, some e) => ([], st, some e)
  | (st, none) => (cachePeekFocus st.tripledict fuel f ps, st, none)

/-- A sequence of `ask` operations against one cache instance, threading
the state (each call's result value and error are observed by the caller;
the cache persists either way). -/
def runAsks (G : Gathering) (fuel : Nat) (ops : List (Pathset × Focus))
    (st : GState) : GState :=
  ops.foldl (fun st op => (G.ask fuel op.1 op.2 st).2.1) st

/-- The value returned by `Gathering.leaf_a_record`: either a deep copy of
the cache's triple dictionary taken at call time (`pls_copy=True`), or a
`types.MappingProxyType` around the cache's own dictionary
(`pls_copy=False`). -/
inductive LeafRecord where
  | snapshot (g : Tripledict)
  | readonlyView
deriving DecidableEq, Repr

/-- `Gathering.leaf_a_record`. -/
def leaf_a_record (pls_copy : Bool) (st : GState) : LeafRecord :=
  if pls_copy then .snapshot st.tripledict else .readonlyView

/-- Reading a `leaf_a_record` result later, when the cache is in state
`st`: a deep copy holds the triples of the moment it was taken; a
`MappingProxyType` is a dynamic read-only view of the cache's own
dictionary, so reading it reflects the cache's current state. -/
def readLeaf : LeafRecord → GState → Tripledict
  | .snapshot g, _ => g
  | .readonlyView, st => st.tripledict

section HelperLemmas

theorem contains_iff_mem {α : Type} [DecidableEq α] (l : List α) (x : α) :
    l.contains x = true ↔ x ∈ l := by
  simp [List.contains]

theorem setEqB_iff {α : Type} [DecidableEq α] (a b : List α) :
    setEqB a b = true ↔ ∀ x, x ∈ a ↔ x ∈ b := by
  simp only [setEqB, Bool.and_eq_true, List.all_eq_true, contains_iff_mem]
  constructor
  · rintro ⟨h1, h2⟩ x
    exact ⟨fun hx => h1 x hx, fun hx => h2 x hx⟩
  · intro h
    exact ⟨fun x hx => (h x).1 hx, fun x hx => (h x).2 hx⟩

theorem setEqB_refl {α : Type} [DecidableEq α] (a : List α) :
    setEqB a a = true := by
  rw [setEqB_iff]; intro x; rfl

theorem setEqB_symm {α : Type} [DecidableEq α] {a b : List α}
    (h : setEqB a b = true) : setEqB b a = true := by
  rw [setEqB_iff] at h ⊢
  intro x
  exact (h x).symm

theorem setEqB_trans {α : Type} [DecidableEq α] {a b c : List α}
    (h1 : setEqB a b = true) (h2 : setEqB b c = true) :
    setEqB a c = true := by
  rw [setEqB_iff] at h1 h2 ⊢
  intro x
  exact (h1 x).trans (h2 x)

theorem pyEq_refl (f : Focus) : Focus.pyEq f f = true := by
  simp [Focus.pyEq, setEqB_refl]

theorem pyEq_symm {a b : Focus} (h : Focus.pyEq a b = true) :
    Focus.pyEq b a = true := by
  simp only [Focus.pyEq, Bool.and_eq_true] at h ⊢
  exact ⟨⟨setEqB_symm h.1.1, setEqB_symm h.1.2⟩, setEqB_symm h.2⟩

theorem pyEq_trans {a b c : Focus} (h1 : Focus.pyEq a b = true)
    (h2 : Focus.pyEq b c = true) : Focus.pyEq a c = true := by
  simp only [Focus.pyEq, Bool.and_eq_true] at h1 h2 ⊢
  exact ⟨⟨setEqB_trans h1.1.1 h2.1.1, setEqB_trans h1.1.2 h2.1.2⟩,
    setEqB_trans h1.2 h2.2⟩

/-- Python's `min` as a left fold keeping the earliest element on ties: its
result is a member of the list and no later comparison beats it — for any
strict comparison that is irreflexive, transitive, and negatively
transitive (a strict weak order, as every `min(key=...)` comparison is). -/
theorem foldlMin_spec {α : Type} (lt : α → α → Prop) [DecidableRel lt]
    (hirr : ∀ a, ¬ lt a a) (htrans : ∀ {a b c}, lt a b → lt b c → lt a c)
    (hneg : ∀ {a b c}, ¬ lt a b → ¬ lt b c → ¬ lt a c)
    (x : α) (xs : List α) :
    xs.foldl (fun acc y => if lt y acc then y else acc) x ∈ x :: xs ∧
      ∀ z ∈ x :: xs,
        ¬ lt z (xs.foldl (fun acc y => if lt y acc then y else acc) x) := by
  induction xs generalizing x with
  | nil =>
      refine ⟨by simp, ?_⟩
      intro z hz
      simp only [List.mem_singleton] at hz
      subst hz
      exact hirr z
  | cons y ys ih =>
      simp only [List.foldl_cons]
      by_cases hlt : lt y x
      · rw [if_pos hlt]
        obtain ⟨hm, hleast⟩ := ih y
        refine ⟨List.mem_cons_of_mem x hm, ?_⟩
        intro z hz
        rcases List.mem_cons.1 hz with rfl | hz'
        · intro hk
          exact hleast y (List.mem_cons_self y ys) (htrans hlt hk)
        · exact hleast z hz'
      · rw [if_neg hlt]
        obtain ⟨hm, hleast⟩ := ih x
        refine ⟨?_, ?_⟩
        · rcases List.mem_cons.1 hm with h1 | h1
          · rw [h1]; exact List.mem_cons_self x (y :: ys)
          · exact List.mem_cons_of_mem x (List.mem_cons_of_mem y h1)
        · intro z hz
          rcases List.mem_cons.1 hz with rfl | hz'
          · exact hleast z (List.mem_cons_self z ys)
          · rcases List.mem_cons.1 hz' with rfl | hz''
            · exact hneg hlt (hleast x (List.mem_cons_self x ys))
            · exact hleast z (List.mem_cons_of_mem x hz'')

theorem minByLen_spec (l : List String) (h : l ≠ []) :
    minByLen l ∈ l ∧ ∀ x ∈ l, (minByLen l).length ≤ x.length := by
  match l with
  | x :: xs =>
      have := foldlMin_spec (fun a b => a.length < b.length)
        (fun a => lt_irrefl _) (fun h1 h2 => lt_trans h1 h2)
        (fun h1 h2 => by omega) x xs
      simp only [minByLen]
      exact ⟨this.1, fun z hz => le_of_not_lt (this.2 z hz)⟩

theorem iriKeyLt_antisymm {a b : String} (h1 : ¬ iriKeyLt a b)
    (h2 : ¬ iriKeyLt b a) : a = b := by
  unfold iriKeyLt at h1 h2
  push_neg at h1 h2
  have hlen : a.length = b.length := by
    have := h1.1
    have := h2.1
    omega
  have hab : ¬ a < b := h1.2 hlen
  have hba : ¬ b < a := h2.2 hlen.symm
  exact le_antisymm (le_of_not_lt hba) (le_of_not_lt hab)

theorem iriKeyLt_trans {a b c : String} (h1 : iriKeyLt a b)
    (h2 : iriKeyLt b c) : iriKeyLt a c := by
  rcases h1 with h1 | ⟨he1, hs1⟩ <;> rcases h2 with h2 | ⟨he2, hs2⟩
  · exact Or.inl (lt_trans h1 h2)
  · exact Or.inl (he2 ▸ h1)
  · exact Or.inl (he1 ▸ h2)
  · exact Or.inr ⟨he1.trans he2, lt_trans hs1 hs2⟩

theorem iriKeyLt_negTrans {a b c : String} (h1 : ¬ iriKeyLt a b)
    (h2 : ¬ iriKeyLt b c) : ¬ iriKeyLt a c := by
  intro hac
  rcases lt_trichotomy a.length b.length with h | h | h
  · exact h1 (Or.inl h)
  · rcases lt_trichotomy (α := String) a b with hs | hs | hs
    · exact h1 (Or.inr ⟨h, hs⟩)
    · subst hs; exact h2 hac
    · rcases hac with hac | ⟨hace, hacs⟩
      · exact h2 (Or.inl (by omega))
      · rcases lt_trichotomy (α := String) b c with hbc | hbc | hbc
        · exact h2 (Or.inr ⟨by omega, hbc⟩)
        · subst hbc; exact h1 (Or.inr ⟨h, hacs⟩)
        · exact absurd (lt_trans hbc (lt_trans hs hacs)) (lt_irrefl _)
  · rcases hac with hac | ⟨hace, _⟩
    · exact h2 (Or.inl (by omega))
    · exact h2 (Or.inl (by omega))

theorem iriKeyLt_irrefl (a : String) : ¬ iriKeyLt a a := by
  rintro (h | ⟨_, h⟩)
  · exact lt_irrefl _ h
  · exact lt_irrefl _ h

theorem choose_one_iri_spec (l : List String) (h : l ≠ []) :
    choose_one_iri l ∈ l ∧ ∀ x ∈ l, ¬ iriKeyLt x (choose_one_iri l) := by
  match l with
  | x :: xs =>
      have := foldlMin_spec iriKeyLt iriKeyLt_irrefl
        (fun h1 h2 => iriKeyLt_trans h1 h2)
        (fun h1 h2 => iriKeyLt_negTrans h1 h2) x xs
      simp only [choose_one_iri]
      exact this

/-- `choose_one_iri` is a function of the iri set alone: set-equal lists
give the same result. -/
theorem choose_one_iri_setInvariant (l l' : List String) (h : l ≠ [])
    (h' : l' ≠ []) (hset : setEqB l l' = true) :
    choose_one_iri l = choose_one_iri l' := by
  obtain ⟨hm, hleast⟩ := choose_one_iri_spec l h
  obtain ⟨hm', hleast'⟩ := choose_one_iri_spec l' h'
  rw [setEqB_iff] at hset
  exact iriKeyLt_antisymm
    (hleast' (choose_one_iri l) ((hset _).1 hm))
    (hleast (choose_one_iri l') ((hset _).2 hm'))

end HelperLemmas

section RegistryLemmas

theorem mem_gathererSetAdd (gs : List Nat) (g x : Nat) :
    x ∈ gathererSetAdd gs g ↔ x ∈ gs ∨ x = g := by
  unfold gathererSetAdd
  by_cases h : gs.contains g
  · rw [if_pos h]
    rw [contains_iff_mem] at h
    constructor
    · exact Or.inl
    · rintro (hx | rfl)
      · exact hx
      · exact h
  · rw [if_neg h]
    simp [List.mem_append]

theorem assocGet_mem {β : Type} (d : List (String × β)) (k : String) (v : β)
    (h : assocGet d k = some v) : (k, v) ∈ d := by
  induction d with
  | nil => simp [assocGet] at h
  | cons e rest ih =>
      obtain ⟨k0, v0⟩ := e
      simp only [assocGet] at h
      by_cases hk : k0 = k
      · rw [if_pos hk] at h
        subst hk
        cases h
        exact List.mem_cons_self _ _
      · rw [if_neg hk] at h
        exact List.mem_cons_of_mem _ (ih h)

theorem assocGet_assocSet {β : Type} (d : List (String × β)) (k k' : String)
    (v : β) :
    assocGet (assocSet d k v) k' =
      if k = k' ∧ (assocGet d k).isSome then some v else assocGet d k' := by
  induction d with
  | nil => simp [assocSet, assocGet]
  | cons e rest ih =>
      obtain ⟨k0, v0⟩ := e
      by_cases h0 : k0 = k
      · subst h0
        simp only [assocSet, if_pos rfl]
        by_cases hk : k0 = k'
        · subst hk
          simp [assocGet]
        · simp [assocGet, hk]
      · simp only [assocSet, if_neg h0]
        by_cases hk : k0 = k'
        · subst hk
          rw [if_neg (fun h => h0 (h.1.symm))]
          simp [assocGet]
        · simp only [assocGet, if_neg hk]
          rw [ih]
          by_cases hck : k = k' ∧ (assocGet rest k).isSome = true
          · rw [if_pos hck, if_pos (by simpa [assocGet, h0] using hck)]
          · rw [if_neg hck, if_neg (by simpa [assocGet, h0] using hck)]

theorem assocGet_append_single {β : Type} (d : List (String × β))
    (k k' : String) (v : β) :
    assocGet (d ++ [(k, v)]) k' =
      match assocGet d k' with
      | some w => some w
      | none => if k = k' then some v else none := by
  induction d with
  | nil => simp [assocGet]
  | cons e rest ih =>
      obtain ⟨k0, v0⟩ := e
      simp only [List.cons_append, assocGet]
      by_cases hk : k0 = k'
      · rw [if_pos hk, if_pos hk]
      · rw [if_neg hk, if_neg hk]
        exact ih

theorem getD_signupIndexAdd (d : List (String × List Nat)) (k : String)
    (g : Nat) (k' : String) :
    (assocGet (signupIndexAdd d k g) k').getD [] =
      if k = k' then gathererSetAdd ((assocGet d k).getD []) g
      else (assocGet d k').getD [] := by
  unfold signupIndexAdd
  cases hdk : assocGet d k with
  | none =>
      rw [assocGet_append_single]
      by_cases hk : k = k'
      · subst hk
        rw [hdk, if_pos rfl]
        simp [hdk, gathererSetAdd]
      · cases hdk' : assocGet d k' with
        | none => simp [hk]
        | some w => simp [hk]
  | some gs =>
      rw [assocGet_assocSet]
      by_cases hk : k = k'
      · subst hk
        rw [if_pos ⟨rfl, by simp [hdk]⟩, if_pos rfl]
        simp [hdk]
      · rw [if_neg (fun h => hk h.1), if_neg hk]

theorem mem_lookup_signupIndexAdd (d : List (String × List Nat)) (k : String)
    (g : Nat) (k' : String) (x : Nat) :
    x ∈ (assocGet (signupIndexAdd d k g) k').getD [] ↔
      x ∈ (assocGet d k').getD [] ∨ (x = g ∧ k' = k) := by
  rw [getD_signupIndexAdd]
  by_cases hk : k = k'
  · subst hk
    rw [if_pos rfl, mem_gathererSetAdd]
    constructor
    · rintro (h | h)
      · exact Or.inl h
      · exact Or.inr ⟨h, rfl⟩
    · rintro (h | ⟨h, _⟩)
      · exact Or.inl h
      · exact Or.inr h
  · rw [if_neg hk]
    constructor
    · exact Or.inl
    · rintro (h | ⟨_, h⟩)
      · exact h
      · exact absurd h.symm hk

theorem mem_axisChain (d : List (String × List Nat)) (iris : List String)
    (anySet : List Nat) (x : Nat) :
    x ∈ axisChain d iris anySet ↔
      (∃ i ∈ iris, x ∈ (assocGet d i).getD []) ∨ x ∈ anySet := by
  simp only [axisChain, List.mem_append, List.mem_flatten, List.mem_map]
  constructor
  · rintro (⟨l, ⟨i, hi, rfl⟩, hx⟩ | h)
    · exact Or.inl ⟨i, hi, hx⟩
    · exact Or.inr h
  · rintro (⟨i, hi, hx⟩ | h)
    · exact Or.inl ⟨(assocGet d i).getD [], ⟨i, hi, rfl⟩, hx⟩
    · exact Or.inr h

/-- Membership characterization of `_GathererSignup.get_gatherers`: exactly
the intersection of the two per-axis unions (each axis: the union of the
buckets of the requested iris plus that axis's wildcard bucket). -/
theorem mem_get_gatherers (s : Signup) (f : Focus) (preds : List String)
    (g : Nat) :
    g ∈ s.get_gatherers f preds ↔
      ((∃ p ∈ preds, g ∈ (assocGet s.by_predicate p).getD []) ∨
          g ∈ s.for_any_predicate) ∧
      ((∃ t, RdfObj.iri t ∈ f.type_iris ∧
            g ∈ (assocGet s.by_focustype t).getD []) ∨
          g ∈ s.for_any_focustype) := by
  unfold Signup.get_gatherers
  rw [List.mem_filter, List.mem_dedup, mem_axisChain, contains_iff_mem,
    mem_axisChain]
  constructor
  · rintro ⟨h1, h2⟩
    refine ⟨h1, ?_⟩
    rcases h2 with ⟨t, ht, hx⟩ | h
    · rw [List.mem_filterMap] at ht
      obtain ⟨o, ho, hfn⟩ := ht
      cases o <;> simp_all
      exact Or.inl ⟨t, ho, hx⟩
    · exact Or.inr h
  · rintro ⟨h1, h2⟩
    refine ⟨h1, ?_⟩
    rcases h2 with ⟨t, ht, hx⟩ | h
    · refine Or.inl ⟨t, ?_, hx⟩
      rw [List.mem_filterMap]
      exact ⟨.iri t, ht, rfl⟩
    · exact Or.inr h

/-- A gatherer id appears somewhere in a signup (used to state that a fresh
gatherer is being registered). -/
def Signup.hasGatherer (s : Signup) (g : Nat) : Prop :=
  g ∈ s.for_any_predicate ∨ g ∈ s.for_any_focustype ∨
    (∃ e ∈ s.by_predicate, g ∈ e.2) ∨ (∃ e ∈ s.by_focustype, g ∈ e.2)

instance (s : Signup) (g : Nat) : Decidable (s.hasGatherer g) := by
  unfold Signup.hasGatherer; infer_instance

theorem mem_getD_sub (d : List (String × List Nat)) (i : String) (g : Nat)
    (h : g ∈ (assocGet d i).getD []) : ∃ e ∈ d, g ∈ e.2 := by
  cases hd : assocGet d i with
  | none => rw [hd] at h; simp at h
  | some v =>
      rw [hd] at h
      exact ⟨(i, v), assocGet_mem d i v hd, h⟩

/-- The effect of `add_gatherer` with predicate set `{P}` and focustype set
`{T1, T2}` on a later `get_gatherers` lookup, for a gatherer not previously
registered anywhere in the signup. -/
theorem add_gatherer_PT_mem (s : Signup) (g : Nat) (P T1 T2 : String)
    (hfresh : ¬ s.hasGatherer g) (f : Focus) (preds : List String) :
    g ∈ (s.add_gatherer g [P] [T1, T2]).get_gatherers f preds ↔
      P ∈ preds ∧ (RdfObj.iri T1 ∈ f.type_iris ∨ RdfObj.iri T2 ∈ f.type_iris) := by
  unfold Signup.hasGatherer at hfresh
  push_neg at hfresh
  obtain ⟨hw1, hw2, hb1, hb2⟩ := hfresh
  have hs' : s.add_gatherer g [P] [T1, T2] =
      { s with
          by_predicate := signupIndexAdd s.by_predicate P g
          by_focustype :=
            signupIndexAdd (signupIndexAdd s.by_focustype T1 g) T2 g } := by
    simp [Signup.add_gatherer, List.isEmpty]
  rw [hs', mem_get_gatherers]
  simp only
  constructor
  · rintro ⟨hpred, htype⟩
    refine ⟨?_, ?_⟩
    · rcases hpred with ⟨p, hp, hlook⟩ | hany
      · rw [mem_lookup_signupIndexAdd] at hlook
        rcases hlook with hold | ⟨_, rfl⟩
        · obtain ⟨e, he, hg⟩ := mem_getD_sub _ _ _ hold
          exact absurd hg (hb1 e he)
        · exact hp
      · exact absurd hany hw1
    · rcases htype with ⟨t, ht, hlook⟩ | hany
      · rw [mem_lookup_signupIndexAdd] at hlook
        rcases hlook with hold | ⟨_, rfl⟩
        · rw [mem_lookup_signupIndexAdd] at hold
          rcases hold with hold2 | ⟨_, rfl⟩
          · obtain ⟨e, he, hg⟩ := mem_getD_sub _ _ _ hold2
            exact absurd hg (hb2 e he)
          · exact Or.inl ht
        · exact Or.inr ht
      · exact absurd hany hw2
  · rintro ⟨hp, htype⟩
    refine ⟨Or.inl ⟨P, hp, ?_⟩, ?_⟩
    · rw [mem_lookup_signupIndexAdd]
      exact Or.inr ⟨rfl, rfl⟩
    · rcases htype with ht | ht
      · refine Or.inl ⟨T1, ht, ?_⟩
        rw [mem_lookup_signupIndexAdd, mem_lookup_signupIndexAdd]
        exact Or.inl (Or.inr ⟨rfl, rfl⟩)
      · refine Or.inl ⟨T2, ht, ?_⟩
        rw [mem_lookup_signupIndexAdd]
        exact Or.inr ⟨rfl, rfl⟩

end RegistryLemmas

section ClaimC2

/-- C2: gatherer lookup returns exactly the intersection of the two
per-axis unions (union of the buckets of any requested predicate plus the
any-predicate wildcard set, intersected with the union of the buckets of
any focus type plus the any-type wildcard set); and a gatherer freshly
registered for predicate set {P} and type set {T1, T2} is returned iff the
requested predicates include P and the focus's type set meets {T1, T2}. -/
theorem C2_gatherer_lookup :
    (∀ (s : Signup) (f : Focus) (preds : List String) (g : Nat),
        g ∈ s.get_gatherers f preds ↔
          ((∃ p ∈ preds, g ∈ (assocGet s.by_predicate p).getD []) ∨
              g ∈ s.for_any_predicate) ∧
          ((∃ t, RdfObj.iri t ∈ f.type_iris ∧
                g ∈ (assocGet s.by_focustype t).getD []) ∨
              g ∈ s.for_any_focustype)) ∧
    (∀ (s : Signup) (g : Nat) (P T1 T2 : String) (f : Focus)
        (preds : List String), ¬ s.hasGatherer g →
        (g ∈ (s.add_gatherer g [P] [T1, T2]).get_gatherers f preds ↔
          P ∈ preds ∧
            (RdfObj.iri T1 ∈ f.type_iris ∨ RdfObj.iri T2 ∈ f.type_iris))) :=
  ⟨mem_get_gatherers, fun s g P T1 T2 f preds h =>
    add_gatherer_PT_mem s g P T1 T2 h f preds⟩

/-- Witness for C2 at a concrete signup: a fresh gatherer registered for
predicate {"x:P"} and types {"x:T1", "x:T2"} is returned for a focus of
type "x:T1" when "x:P" is requested. -/
theorem C2_gatherer_lookup_witness :
    ¬ Signup.hasGatherer .empty 0 ∧
      (0 ∈ (Signup.add_gatherer .empty 0 ["x:P"] ["x:T1", "x:T2"]).get_gatherers
          ⟨["x:f"], [.iri "x:T1"], []⟩ ["x:P"] ↔
        "x:P" ∈ ["x:P"] ∧
          (RdfObj.iri "x:T1" ∈ [RdfObj.iri "x:T1"] ∨
            RdfObj.iri "x:T2" ∈ [RdfObj.iri "x:T1"])) :=
  ⟨by decide,
    C2_gatherer_lookup.2 .empty 0 "x:P" "x:T1" "x:T2" ⟨["x:f"], [.iri "x:T1"], []⟩
      ["x:P"] (by decide)⟩

end ClaimC2

section ClaimC5

/-- C5: tidying gatherer yields — a 2-tuple `(P, obj)` (with no "nothing")
becomes the triple `(focus.single_iri(), P, obj)`; any 2- or 3-tuple with
`None` in any subject/predicate/object position is silently dropped (no
fact, no error); any yielded tuple of length other than 2 or 3 raises
`ValueError`. -/
theorem C5_fact_tidying :
    (∀ (f : Focus) (p : String) (o : YObj),
        tidyTriple f (.two (some p) (some o)) =
          .ok (some (.iriS f.single_iri, p, o))) ∧
    (∀ (f : Focus) (o : Option YObj), tidyTriple f (.two none o) = .ok none) ∧
    (∀ (f : Focus) (p : Option String), tidyTriple f (.two p none) = .ok none) ∧
    (∀ (f : Focus) (p : Option String) (o : Option YObj),
        tidyTriple f (.three none p o) = .ok none) ∧
    (∀ (f : Focus) (s : Option YSubj) (o : Option YObj),
        tidyTriple f (.three s none o) = .ok none) ∧
    (∀ (f : Focus) (s : Option YSubj) (p : Option String),
        tidyTriple f (.three s p none) = .ok none) ∧
    (∀ (f : Focus) (n : Nat), tidyTriple f (.badTuple n) = .error .valueErr) := by
  refine ⟨fun f p o => rfl, fun f o => ?_, fun f p => ?_, fun f p o => ?_,
    fun f s o => ?_, fun f s p => ?_, fun f n => rfl⟩
  · cases o <;> rfl
  · cases p <;> rfl
  · cases p <;> cases o <;> rfl
  · cases s <;> cases o <;> rfl
  · cases s <;> cases p <;> rfl

end ClaimC5

section ClaimC7

/-- C7 counterexample: `single_iri` is `min(iris, key=len)`, so between two
equal-length identifiers it keeps whichever the set's iteration order
presents first — for set-equal iteration orders `["bb", "aa"]` and
`["aa", "bb"]` it returns different identifiers, and `"bb"` is not the
lexicographically-least of the shortest ones, refuting both the
pure-function-of-the-set claim and the lexicographic tie-break. -/
theorem C7_counterexample :
    setEqB (Focus.mk ["bb", "aa"] [] []).iris (Focus.mk ["aa", "bb"] [] []).iris
        = true ∧
      (Focus.mk ["bb", "aa"] [] []).single_iri = "bb" ∧
      (Focus.mk ["aa", "bb"] [] []).single_iri = "aa" ∧
      (Focus.mk ["bb", "aa"] [] []).single_iri ≠
        (Focus.mk ["aa", "bb"] [] []).single_iri ∧
      iriKeyLt "aa" "bb" := by
  refine ⟨by decide, by decide, by decide, by decide, ?_⟩
  refine Or.inr ⟨rfl, ?_⟩
  rw [String.lt_iff_toList_lt]
  exact List.Lex.rel (by decide)

/-- C7 (amended): `Focus.single_iri` returns an identifier of minimal
length from the iteration order of the identifier set (ties kept in
iteration order, not broken lexicographically); the separate helper
`choose_one_iri` does select the shortest identifier with lexicographic
tie-break, and is a pure function of the identifier set (set-equal inputs
give equal results). -/
theorem C7_canonical_identifier (f : Focus) (hf : f.iris ≠ []) :
    (f.single_iri ∈ f.iris ∧ ∀ x ∈ f.iris, f.single_iri.length ≤ x.length) ∧
    (choose_one_iri f.iris ∈ f.iris ∧
      ∀ x ∈ f.iris, ¬ iriKeyLt x (choose_one_iri f.iris)) ∧
    (∀ l', l' ≠ [] → setEqB f.iris l' = true →
        choose_one_iri f.iris = choose_one_iri l') :=
  ⟨minByLen_spec f.iris hf, choose_one_iri_spec f.iris hf,
    fun l' h' hset => choose_one_iri_setInvariant f.iris l' hf h' hset⟩

/-- Witness for C7 at the concrete focus with iris `["bb", "aa"]`. -/
theorem C7_canonical_identifier_witness :
    (Focus.mk ["bb", "aa"] [] []).iris ≠ [] ∧
      (((Focus.mk ["bb", "aa"] [] []).single_iri ∈
            (Focus.mk ["bb", "aa"] [] []).iris ∧
          ∀ x ∈ (Focus.mk ["bb", "aa"] [] []).iris,
            (Focus.mk ["bb", "aa"] [] []).single_iri.length ≤ x.length) ∧
        (choose_one_iri (Focus.mk ["bb", "aa"] [] []).iris ∈
            (Focus.mk ["bb", "aa"] [] []).iris ∧
          ∀ x ∈ (Focus.mk ["bb", "aa"] [] []).iris,
            ¬ iriKeyLt x (choose_one_iri (Focus.mk ["bb", "aa"] [] []).iris)) ∧
        (∀ l', l' ≠ [] →
            setEqB (Focus.mk ["bb", "aa"] [] []).iris l' = true →
            choose_one_iri (Focus.mk ["bb", "aa"] [] []).iris =
              choose_one_iri l')) :=
  ⟨by decide, C7_canonical_identifier (Focus.mk ["bb", "aa"] [] []) (by decide)⟩

end ClaimC7

section ClaimC9

/-- C9 counterexample: `_GathererSignup.add_gatherer` accepts a
registration with empty predicate-iris and empty focustype-iris — no error
is raised; the gatherer lands in both wildcard buckets and is dispatched
by every lookup (here: a lookup with no requested predicates and a focus
with no matching types). -/
theorem C9_counterexample :
    (Signup.add_gatherer .empty 7 [] []).for_any_predicate = [7] ∧
      (Signup.add_gatherer .empty 7 [] []).for_any_focustype = [7] ∧
      Signup.get_gatherers (Signup.add_gatherer .empty 7 [] [])
          ⟨["x:f"], [], []⟩ [] = [7] := by
  decide

/-- C9 (amended): the legacy registry (src/gather/gatherer.py) does reject
a registration with both criterion sets empty (its `assert`), and accepts
whenever at least one is non-empty; the current `_GathererSignup`
(primitive_metadata/gather.py) never raises — a both-empty registration
simply lands in both wildcard buckets. -/
theorem C9_registration_criteria :
    (∀ (reg : List ((Option String × Option String) × List Nat)) (g : Nat)
        (ps ts : List String),
        (∃ r, legacyAddGatherer reg g ps ts = .ok r) ↔ ¬(ps = [] ∧ ts = [])) ∧
    (∀ (s : Signup) (g : Nat),
        (Signup.add_gatherer s g [] []).for_any_predicate.contains g = true ∧
        (Signup.add_gatherer s g [] []).for_any_focustype.contains g = true) := by
  constructor
  · intro reg g ps ts
    unfold legacyAddGatherer
    by_cases h : ps.isEmpty ∧ ts.isEmpty
    · rw [if_pos h]
      simp only [List.isEmpty_iff] at h
      constructor
      · rintro ⟨r, hr⟩
        cases hr
      · intro hn
        exact absurd h hn
    · rw [if_neg h]
      simp only [List.isEmpty_iff] at h
      constructor
      · intro _
        exact h
      · intro _
        exact ⟨_, rfl⟩
  · intro s g
    have h1 : (Signup.add_gatherer s g [] []).for_any_predicate =
        gathererSetAdd s.for_any_predicate g := by
      simp [Signup.add_gatherer, List.isEmpty]
    have h2 : (Signup.add_gatherer s g [] []).for_any_focustype =
        gathererSetAdd s.for_any_focustype g := by
      simp [Signup.add_gatherer, List.isEmpty]
    rw [h1, h2]
    constructor <;>
      · rw [contains_iff_mem, mem_gathererSetAdd]
        exact Or.inr rfl

end ClaimC9

/-- A one-gatherer gathering for the snapshot scenarios: gatherer 0 is
registered for predicate "p:P" and yields the single twople `(p:P, 1)`. -/
def exG8 : Gathering :=
  { signup := Signup.add_gatherer .empty 0 ["p:P"] []
    run := fun _ _ _ => ([.two (some "p:P") (some (.objO (.litInt 1)))], false)
    gatherer_kwargnames := []
    gatherer_kwargs := [] }

/-- A focus on entity "a:1". -/
def exF1 : Focus := ⟨["a:1"], [.iri "a:T"], []⟩

/-- A focus on entity "a:2". -/
def exF2 : Focus := ⟨["a:2"], [.iri "a:T"], []⟩

/-- The cache state after asking about "a:1". -/
def ex8st1 : GState := (exG8.ask 20 (pathsetOne "p:P") exF1 .empty).2.1

/-- The cache state after a further ask about "a:2" on the same cache. -/
def ex8st2 : GState := (exG8.ask 20 (pathsetOne "p:P") exF2 ex8st1).2.1

section ClaimC8

/-- C8 counterexample: the `pls_copy=False` form of `leaf_a_record` is a
`MappingProxyType` around the cache's own dictionary — a live read-only
view.  Taking it, then performing a further `pull` that adds triples,
makes reading the view differ from the graph as of the time of the call. -/
theorem C8_counterexample :
    readLeaf (leaf_a_record false ex8st1) ex8st2 ≠ ex8st1.tripledict := by
  decide

/-- C8 (amended): the deep-copy form (`pls_copy=True`) is a snapshot as of
the call and is left unchanged by subsequent pulls; the `pls_copy=False`
form is a read-only but live view that reflects the cache's current graph
after subsequent pulls (demonstrated on a run where the graph really
changes). -/
theorem C8_snapshot_isolation :
    (∀ (G : Gathering) (fuel : Nat) (ps : Pathset) (f : Focus) (st : GState),
        readLeaf (leaf_a_record true st) (G.ask fuel ps f st).2.1 =
            st.tripledict ∧
          readLeaf (leaf_a_record false st) (G.ask fuel ps f st).2.1 =
            (G.ask fuel ps f st).2.1.tripledict) ∧
      readLeaf (leaf_a_record true ex8st1) ex8st2 = ex8st1.tripledict ∧
      ex8st1.tripledict ≠ ex8st2.tripledict := by
  refine ⟨fun G fuel ps f st => ⟨rfl, rfl⟩, by decide, by decide⟩

end ClaimC8

mutual
/-- A record (transitively) contains an RDF object: the object is a member
of one of its twoples, or is contained in such a member.  Only blank nodes
contain anything. -/
def RdfObj.containsB : RdfObj → RdfObj → Bool
  | .blank b, x => Twoples.anyContains b x
  | _, _ => false

/-- Some twople's object equals `x` or contains `x`. -/
def Twoples.anyContains : Twoples → RdfObj → Bool
  | .nil, _ => false
  | .cons _ o rest, x =>
      o == x || RdfObj.containsB o x || Twoples.anyContains rest x
end

mutual
/-- An RDF object with no iri references anywhere inside: walking it from
`__gather_thru_object` stays within the record structure (an iri object
would instead leave the record walk and resolve a new focus). -/
def RdfObj.iriFree : RdfObj → Bool
  | .iri _ => false
  | .blank b => Twoples.iriFreeT b
  | _ => true

/-- All twople objects are iri-free. -/
def Twoples.iriFreeT : Twoples → Bool
  | .nil => true
  | .cons _ o rest => RdfObj.iriFree o && Twoples.iriFreeT rest
end

section ClaimC6

theorem rdfObjSizeOfPos (o : RdfObj) : 1 ≤ sizeOf o := by
  cases o <;> simp_arith

theorem twoplesSizeOfPos (b : Twoples) : 1 ≤ sizeOf b := by
  cases b <;> simp_arith

mutual
theorem containsB_size : ∀ (p c : RdfObj),
    RdfObj.containsB p c = true → sizeOf c < sizeOf p
  | .blank b, c, h => by
      have := anyContains_size b c (by simpa [RdfObj.containsB] using h)
      simp only [RdfObj.blank.sizeOf_spec]
      omega
  | .iri s, c, h => by simp [RdfObj.containsB] at h
  | .litInt n, c, h => by simp [RdfObj.containsB] at h
  | .lit v l, c, h => by simp [RdfObj.containsB] at h

theorem anyContains_size : ∀ (b : Twoples) (c : RdfObj),
    Twoples.anyContains b c = true → sizeOf c < sizeOf b
  | .nil, c, h => by simp [Twoples.anyContains] at h
  | .cons p o rest, c, h => by
      simp only [Twoples.anyContains, Bool.or_eq_true] at h
      rcases h with (heq | hcont) | hrest
      · have : o = c := eq_of_beq heq
        subst this
        simp only [Twoples.cons.sizeOf_spec]
        omega
      · have := containsB_size o c hcont
        simp only [Twoples.cons.sizeOf_spec]
        omega
      · have := anyContains_size rest c hrest
        simp only [Twoples.cons.sizeOf_spec]
        omega
end

theorem iriFreeT_head {p : String} {o : RdfObj} {rest : Twoples}
    (h : Twoples.iriFreeT (.cons p o rest) = true) :
    RdfObj.iriFree o = true ∧ Twoples.iriFreeT rest = true := by
  simpa [Twoples.iriFreeT, Bool.and_eq_true] using h

theorem iriFree_container_objects : ∀ {b : Twoples},
    Twoples.iriFreeT b = true → ∀ o ∈ container_objects b,
      RdfObj.iriFree o = true
  | .nil, h, o, ho => by simp [container_objects] at ho
  | .cons p x rest, h, o, ho => by
      obtain ⟨hx, hrest⟩ := iriFreeT_head h
      simp only [container_objects] at ho
      by_cases hp : isIndexedPred p
      · rw [if_pos hp] at ho
        rcases List.mem_cons.1 ho with rfl | ho'
        · exact hx
        · exact iriFree_container_objects hrest o ho'
      · rw [if_neg hp] at ho
        exact iriFree_container_objects hrest o ho

theorem sizeOf_container_objects : ∀ (b : Twoples),
    sizeOf (container_objects b) ≤ sizeOf b
  | .nil => by simp [container_objects]
  | .cons p x rest => by
      have ih := sizeOf_container_objects rest
      simp only [container_objects, Twoples.cons.sizeOf_spec]
      by_cases hp : isIndexedPred p
      · rw [if_pos hp]
        simp only [List.cons.sizeOf_spec]
        have : 0 < sizeOf p := by cases p; simp_arith
        omega
      · rw [if_neg hp]
        omega

theorem one_le_sizeOf_listObjs (objs : List RdfObj) : 1 ≤ sizeOf objs := by
  cases objs <;> simp_arith

theorem recordWalk_joint : ∀ fuel : Nat,
    (∀ (G : Gathering) (ps : Pathset) (o : RdfObj) (st : GState),
        o.iriFree = true → sizeOf o ≤ fuel →
        gather_thru_object G fuel ps o st = (st, none)) ∧
    (∀ (G : Gathering) (sub : Pathset) (objs : List RdfObj) (st : GState),
        (∀ o ∈ objs, o.iriFree = true) → sizeOf objs ≤ fuel →
        gatherObjsLoop G fuel sub objs st = (st, none)) ∧
    (∀ (G : Gathering) (ps : Pathset) (b : Twoples) (st : GState),
        b.iriFreeT = true → sizeOf b ≤ fuel →
        gatherTwoplesLoop G fuel ps b st = (st, none)) := by
  intro fuel
  induction fuel with
  | zero =>
      refine ⟨fun G ps o st hf hs => ?_, fun G sub objs st hf hs => ?_,
        fun G ps b st hf hs => ?_⟩
      · exact absurd hs (by have := rdfObjSizeOfPos o; omega)
      · exact absurd hs (by have := one_le_sizeOf_listObjs objs; omega)
      · exact absurd hs (by have := twoplesSizeOfPos b; omega)
  | succ fuel ih =>
      obtain ⟨ihGTO, ihObjs, ihTw⟩ := ih
      refine ⟨fun G ps o st hf hs => ?_, fun G sub objs st hf hs => ?_,
        fun G ps b st hf hs => ?_⟩
      · cases o with
        | iri s => simp [RdfObj.iriFree] at hf
        | litInt n => simp [gather_thru_object]
        | lit v l => simp [gather_thru_object]
        | blank b =>
            simp only [gather_thru_object]
            have hfree : Twoples.iriFreeT b = true := by
              simpa [RdfObj.iriFree] using hf
            have hsz : sizeOf b ≤ fuel := by
              simp only [RdfObj.blank.sizeOf_spec] at hs
              omega
            by_cases hc : is_container b
            · rw [if_pos hc]
              exact ihObjs G ps (container_objects b) st
                (iriFree_container_objects hfree)
                (le_trans (sizeOf_container_objects b) hsz)
            · rw [if_neg hc]
              exact ihTw G ps b st hfree hsz
      · cases objs with
        | nil => simp [gatherObjsLoop]
        | cons o rest =>
            simp only [gatherObjsLoop]
            have ho : o.iriFree = true := hf o (List.mem_cons_self o rest)
            have hso : sizeOf o ≤ fuel := by
              simp only [List.cons.sizeOf_spec] at hs
              omega
            rw [ihGTO G sub o st ho hso]
            exact ihObjs G sub rest st
              (fun o' ho' => hf o' (List.mem_cons_of_mem o ho'))
              (by simp only [List.cons.sizeOf_spec] at hs; omega)
      · cases b with
        | nil => simp [gatherTwoplesLoop]
        | cons p o rest =>
            obtain ⟨ho, hrest⟩ := iriFreeT_head hf
            have hso : sizeOf o ≤ fuel := by
              simp only [Twoples.cons.sizeOf_spec] at hs
              omega
            have hsrest : sizeOf rest ≤ fuel := by
              simp only [Twoples.cons.sizeOf_spec] at hs
              omega
            simp only [gatherTwoplesLoop]
            cases hget : ps.entries.get p with
            | none =>
                dsimp only
                exact ihTw G ps rest st hrest hsrest
            | some sub =>
                dsimp only
                by_cases hemp : sub.isEmpty
                · rw [if_pos hemp]
                  exact ihTw G ps rest st hrest hsrest
                · rw [if_neg hemp, ihGTO G sub o st ho hso]
                  exact ihTw G ps rest st hrest hsrest

/-- C6: a record value cannot (directly or transitively) contain itself —
blank nodes are immutable and built bottom-up, so the "cyclic record"
premise can never occur during a pull — and the record walk of
`__gather_thru_object` over any record that stays within record structure
(no iri references) completes, without state change or error, given
recursion depth linear in the record's size: it never infinite-loops. -/
theorem C6_record_cycle_safety :
    (∀ o : RdfObj, o.containsB o = false) ∧
    (∀ (G : Gathering) (ps : Pathset) (o : RdfObj) (st : GState) (fuel : Nat),
        o.iriFree = true → sizeOf o ≤ fuel →
        gather_thru_object G fuel ps o st = (st, none)) := by
  constructor
  · intro o
    by_contra h
    rw [Bool.not_eq_false] at h
    exact absurd (containsB_size o o h) (lt_irrefl _)
  · intro G ps o st fuel hf hs
    exact (recordWalk_joint fuel).1 G ps o st hf hs

/-- Witness for C6 at a concrete nested record (a blank node containing a
blank node containing an integer), walked with ample fuel. -/
theorem C6_record_cycle_safety_witness :
    (RdfObj.blank (.cons "x:a" (.blank (.cons "x:b" (.litInt 3) .nil)) .nil)).iriFree
        = true ∧
      gather_thru_object exG8 100000 (pathsetOne "x:a")
          (RdfObj.blank (.cons "x:a" (.blank (.cons "x:b" (.litInt 3) .nil)) .nil))
          .empty = (.empty, none) :=
  ⟨by decide,
    C6_record_cycle_safety.2 exG8 (pathsetOne "x:a")
      (RdfObj.blank (.cons "x:a" (.blank (.cons "x:b" (.litInt 3) .nil)) .nil))
      .empty 100000 (by decide) (by decide)⟩

end ClaimC6

section MemoInvariant

/-- Python equality of two memo keys `(gatherer, Focus)`: gatherer identity
and `Focus` value equality. -/
def keyEq (a b : Nat × Focus) : Bool :=
  a.1 == b.1 && Focus.pyEq a.2 b.2

/-- Set membership of a memo key in a list of keys, by `keyEq`. -/
def memKey (l : List (Nat × Focus)) (k : Nat × Focus) : Bool :=
  l.any (fun e => keyEq e k)

theorem keyEq_refl (k : Nat × Focus) : keyEq k k = true := by
  simp [keyEq, pyEq_refl]

theorem keyEq_symm {a b : Nat × Focus} (h : keyEq a b = true) :
    keyEq b a = true := by
  simp only [keyEq, Bool.and_eq_true, beq_iff_eq] at h ⊢
  exact ⟨h.1.symm, pyEq_symm h.2⟩

theorem keyEq_trans {a b c : Nat × Focus} (h1 : keyEq a b = true)
    (h2 : keyEq b c = true) : keyEq a c = true := by
  simp only [keyEq, Bool.and_eq_true, beq_iff_eq] at h1 h2 ⊢
  exact ⟨h1.1.trans h2.1, pyEq_trans h1.2 h2.2⟩

theorem memGathersDone_eq (done : List (Nat × Focus)) (g : Nat) (f : Focus) :
    memGathersDone done g f = memKey done (g, f) := rfl

theorem memKey_append (l1 l2 : List (Nat × Focus)) (k : Nat × Focus) :
    memKey (l1 ++ l2) k = (memKey l1 k || memKey l2 k) := by
  simp [memKey, List.any_append]

theorem memKey_mono {l1 : List (Nat × Focus)} (l2 : List (Nat × Focus))
    {k : Nat × Focus} (h : memKey l1 k = true) :
    memKey (l1 ++ l2) k = true := by
  rw [memKey_append, h, Bool.true_or]

theorem memKey_iff (l : List (Nat × Focus)) (k : Nat × Focus) :
    memKey l k = true ↔ ∃ e ∈ l, keyEq e k = true := by
  simp [memKey, List.any_eq_true]

/-- The proof-facing invariant of a cache state: every logged invocation is
memoized, and no two logged invocations share a memo key. -/
def Good (st : GState) : Prop :=
  (∀ e ∈ st.invocations, memKey st.gathers_done e = true) ∧
    List.Pairwise (fun a b => keyEq a b = false) st.invocations

/-- How every engine step relates the state before to the state after: the
memo set, focus set and invocation log only grow by appending; every newly
logged invocation was unmemoized at the start of the step; and the `Good`
invariant is preserved. -/
def StepOk (st st' : GState) : Prop :=
  (∃ d, st'.gathers_done = st.gathers_done ++ d) ∧
  (∃ fs, st'.focus_set = st.focus_set ++ fs) ∧
  (∃ i, st'.invocations = st.invocations ++ i ∧
      ∀ e ∈ i, memKey st.gathers_done e = false) ∧
  (Good st → Good st')

theorem StepOk.rfl (st : GState) : StepOk st st :=
  ⟨⟨[], by simp⟩, ⟨[], by simp⟩, ⟨[], by simp⟩, id⟩

theorem StepOk.trans {st st1 st2 : GState} (h1 : StepOk st st1)
    (h2 : StepOk st1 st2) : StepOk st st2 := by
  obtain ⟨⟨d1, hd1⟩, ⟨f1, hf1⟩, ⟨i1, hi1, hfresh1⟩, hg1⟩ := h1
  obtain ⟨⟨d2, hd2⟩, ⟨f2, hf2⟩, ⟨i2, hi2, hfresh2⟩, hg2⟩ := h2
  refine ⟨⟨d1 ++ d2, by rw [hd2, hd1, List.append_assoc]⟩,
    ⟨f1 ++ f2, by rw [hf2, hf1, List.append_assoc]⟩,
    ⟨i1 ++ i2, by rw [hi2, hi1, List.append_assoc], ?_⟩,
    fun hg => hg2 (hg1 hg)⟩
  intro e he
  rcases List.mem_append.1 he with he1 | he2
  · exact hfresh1 e he1
  · have := hfresh2 e he2
    rw [hd1, memKey_append] at this
    exact (Bool.or_eq_false_iff.1 this).1

theorem add_focus_fields (st : GState) (f : Focus) :
    (add_focus st f).gathers_done = st.gathers_done ∧
      (add_focus st f).invocations = st.invocations ∧
      ((add_focus st f).focus_set = st.focus_set ∨
        (add_focus st f).focus_set = st.focus_set ++ [f]) := by
  unfold add_focus
  by_cases h : memFocusSet st.focus_set f
  · rw [if_pos h]
    exact ⟨rfl, rfl, Or.inl rfl⟩
  · rw [if_neg h]
    exact ⟨rfl, rfl, Or.inr rfl⟩

theorem stepOk_add_focus (st : GState) (f : Focus) :
    StepOk st (add_focus st f) := by
  obtain ⟨h1, h2, h3⟩ := add_focus_fields st f
  refine ⟨⟨[], by simp [h1]⟩, ?_, ⟨[], by simp [h2]⟩, ?_⟩
  · rcases h3 with h3 | h3
    · exact ⟨[], by simp [h3]⟩
    · exact ⟨[f], h3⟩
  · intro hg
    unfold Good at hg ⊢
    rw [h1, h2]
    exact hg

theorem cacheAddTriple_fields (st : GState) (t : YSubj × String × YObj) :
    (cacheAddTriple st t).gathers_done = st.gathers_done ∧
      (cacheAddTriple st t).invocations = st.invocations ∧
      ∃ fs, (cacheAddTriple st t).focus_set = st.focus_set ++ fs := by
  unfold cacheAddTriple
  obtain ⟨s, p, o⟩ := t
  cases s with
  | iriS si =>
      cases o with
      | objO oo => exact ⟨rfl, rfl, [], by simp⟩
      | focusO fo =>
          obtain ⟨h1, h2, h3⟩ := add_focus_fields st fo
          refine ⟨h1, h2, ?_⟩
          rcases h3 with h3 | h3
          · exact ⟨[], by simp [h3]⟩
          · exact ⟨[fo], h3⟩
  | focusS fs0 =>
      cases o with
      | objO oo =>
          obtain ⟨h1, h2, h3⟩ := add_focus_fields st fs0
          refine ⟨h1, h2, ?_⟩
          rcases h3 with h3 | h3
          · exact ⟨[], by simp [h3]⟩
          · exact ⟨[fs0], h3⟩
      | focusO fo =>
          obtain ⟨h1, h2, h3⟩ := add_focus_fields st fs0
          obtain ⟨h1', h2', h3'⟩ := add_focus_fields (add_focus st fs0) fo
          refine ⟨h1'.trans h1, h2'.trans h2, ?_⟩
          rcases h3 with h3 | h3 <;> rcases h3' with h3' | h3'
          · exact ⟨[], by simp [h3', h3]⟩
          · exact ⟨[fo], by rw [h3', h3]⟩
          · exact ⟨[fs0], by rw [h3', h3]⟩
          · exact ⟨[fs0, fo], by rw [h3', h3]; simp⟩

theorem addYieldsLoop_fields (f : Focus) :
    ∀ (ys : List GatherYield) (st : GState),
      (addYieldsLoop st f ys).1.gathers_done = st.gathers_done ∧
        (addYieldsLoop st f ys).1.invocations = st.invocations ∧
        ∃ fs, (addYieldsLoop st f ys).1.focus_set = st.focus_set ++ fs
  | [], st => ⟨rfl, rfl, [], by simp [addYieldsLoop]⟩
  | y :: rest, st => by
      simp only [addYieldsLoop]
      cases htidy : tidyTriple f y with
      | error e => exact ⟨rfl, rfl, [], by simp⟩
      | ok t =>
          cases t with
          | none => exact addYieldsLoop_fields f rest st
          | some tr =>
              obtain ⟨h1, h2, fs1, h3⟩ := cacheAddTriple_fields st tr
              obtain ⟨h1', h2', fs2, h3'⟩ :=
                addYieldsLoop_fields f rest (cacheAddTriple st tr)
              exact ⟨h1'.trans h1, h2'.trans h2,
                fs1 ++ fs2, by rw [h3', h3, List.append_assoc]⟩

theorem already_gathered_hit {st : GState} {g : Nat} {f : Focus}
    (h : memGathersDone st.gathers_done g f = true) :
    already_gathered st g f = (true, st) := by
  unfold already_gathered
  rw [if_pos h]

theorem already_gathered_miss {st : GState} {g : Nat} {f : Focus}
    (h : memGathersDone st.gathers_done g f = false) :
    already_gathered st g f =
      (false, { st with gathers_done := st.gathers_done ++ [(g, f)] }) := by
  unfold already_gathered
  rw [if_neg (by simp [h])]

/-- `maybe_gather` on a memo hit returns the state unchanged with no
error. -/
theorem maybe_gather_hit (G : Gathering) {st : GState} {g : Nat} {f : Focus}
    (h : memGathersDone st.gathers_done g f = true) :
    maybe_gather G st g f = (st, none) := by
  unfold maybe_gather
  rw [already_gathered_hit h]

/-- A state with fields replaced but memo set and invocation log unchanged
(and focus set only extended) is a `StepOk` step. -/
theorem stepOk_of_fields {st st' : GState}
    (hd : st'.gathers_done = st.gathers_done)
    (hi : st'.invocations = st.invocations)
    (hf : ∃ fs, st'.focus_set = st.focus_set ++ fs) : StepOk st st' := by
  refine ⟨⟨[], by simp [hd]⟩, hf, ⟨[], by simp [hi]⟩, ?_⟩
  intro hg
  unfold Good at hg ⊢
  rw [hd, hi]
  exact hg

theorem stepOk_cacheAddTriple (st : GState) (t : YSubj × String × YObj) :
    StepOk st (cacheAddTriple st t) := by
  obtain ⟨h1, h2, h3⟩ := cacheAddTriple_fields st t
  exact stepOk_of_fields h1 h2 h3

theorem stepOk_addYieldsLoop (f : Focus) (ys : List GatherYield)
    (st : GState) : StepOk st (addYieldsLoop st f ys).1 := by
  obtain ⟨h1, h2, h3⟩ := addYieldsLoop_fields f ys st
  exact stepOk_of_fields h1 h2 h3

/-- The mark-done-then-log-invocation step of a fresh `maybe_gather`: from
`st` to `st` with `(g, f)` appended to both the memo set and the invocation
log, given that `(g, f)` was unmemoized. -/
theorem stepOk_mark_and_log {st : GState} {g : Nat} {f : Focus}
    (h : memGathersDone st.gathers_done g f = false) :
    StepOk st
      { st with
          gathers_done := st.gathers_done ++ [(g, f)]
          invocations := st.invocations ++ [(g, f)] } := by
  rw [memGathersDone_eq] at h
  refine ⟨⟨[(g, f)], rfl⟩, ⟨[], by simp⟩, ⟨[(g, f)], rfl, ?_⟩, ?_⟩
  · intro e he
    rcases List.mem_singleton.1 he with rfl
    exact h
  · rintro ⟨hmem, hpair⟩
    constructor
    · intro e he
      rcases List.mem_append.1 he with he1 | he2
      · exact memKey_mono _ (hmem e he1)
      · rcases List.mem_singleton.1 he2 with rfl
        rw [memKey_append]
        have : memKey [(g, f)] (g, f) = true := by
          simp [memKey, keyEq_refl]
        rw [this, Bool.or_true]
    · rw [List.pairwise_append]
      refine ⟨hpair, List.pairwise_singleton _ _, ?_⟩
      intro a ha b hb
      rcases List.mem_singleton.1 hb with rfl
      by_contra hne
      rw [Bool.not_eq_false] at hne
      obtain ⟨e, he, hek⟩ := (memKey_iff _ _).1 (hmem a ha)
      have : memKey st.gathers_done (g, f) = true :=
        (memKey_iff _ _).2 ⟨e, he, keyEq_trans hek hne⟩
      rw [this] at h
      cases h

/-- The result state of a fresh `maybe_gather` call (no memo hit): the same
for every branch of its body — `(g, f)` marked done, the invocation logged
unless kwargname validation failed, and the tidied yields added. -/
theorem maybe_gather_miss_state (G : Gathering) {st : GState} {g : Nat}
    {f : Focus} (h : memGathersDone st.gathers_done g f = false) :
    (maybe_gather G st g f).1 =
      (if !validateKwargnames G.gatherer_kwargnames
            (mergeKwargs G.gatherer_kwargs f.gatherer_kwargset) then
        { st with gathers_done := st.gathers_done ++ [(g, f)] }
      else
        (addYieldsLoop
          { st with
              gathers_done := st.gathers_done ++ [(g, f)]
              invocations := st.invocations ++ [(g, f)] } f
          (G.run g f
            (mergeKwargs G.gatherer_kwargs f.gatherer_kwargset)).1).1) := by
  unfold maybe_gather
  rw [already_gathered_miss h]
  dsimp only
  by_cases hv : validateKwargnames G.gatherer_kwargnames
      (mergeKwargs G.gatherer_kwargs f.gatherer_kwargset)
  · rw [if_neg (by simp [hv]), if_neg (by simp [hv])]
    rcases hadd : addYieldsLoop
        { st with
            gathers_done := st.gathers_done ++ [(g, f)]
            invocations := st.invocations ++ [(g, f)] } f
        (G.run g f (mergeKwargs G.gatherer_kwargs f.gatherer_kwargset)).1
      with ⟨st3, e3⟩
    cases e3 with
    | some e => rfl
    | none =>
        dsimp only
        by_cases hr :
            (G.run g f (mergeKwargs G.gatherer_kwargs f.gatherer_kwargset)).2
        · rw [if_pos hr]
        · rw [if_neg hr]
  · rw [if_pos (by simp [hv]), if_pos (by simp [hv])]

/-- `maybe_gather` leaves `(gatherer, focus)` memoized in the result state,
whether it was a memo hit or a fresh gather (the pair is marked done before
the gatherer body runs). -/
theorem maybe_gather_marks (G : Gathering) (st : GState) (g : Nat)
    (f : Focus) :
    memKey (maybe_gather G st g f).1.gathers_done (g, f) = true := by
  by_cases h : memGathersDone st.gathers_done g f
  · rw [maybe_gather_hit G h]
    rw [memGathersDone_eq] at h
    exact h
  · rw [Bool.not_eq_true] at h
    rw [maybe_gather_miss_state G h]
    by_cases hv : validateKwargnames G.gatherer_kwargnames
        (mergeKwargs G.gatherer_kwargs f.gatherer_kwargset)
    · rw [if_neg (by simp [hv])]
      obtain ⟨hdone, _, _⟩ := addYieldsLoop_fields f
        (G.run g f (mergeKwargs G.gatherer_kwargs f.gatherer_kwargset)).1
        { st with
            gathers_done := st.gathers_done ++ [(g, f)]
            invocations := st.invocations ++ [(g, f)] }
      rw [hdone]
      dsimp only
      rw [memKey_append]
      have : memKey [(g, f)] (g, f) = true := by simp [memKey, keyEq_refl]
      rw [this, Bool.or_true]
    · rw [if_pos (by simp [hv])]
      dsimp only
      rw [memKey_append]
      have : memKey [(g, f)] (g, f) = true := by simp [memKey, keyEq_refl]
      rw [this, Bool.or_true]

/-- Every `maybe_gather` call is a `StepOk` step. -/
theorem stepOk_maybe_gather (G : Gathering) (st : GState) (g : Nat)
    (f : Focus) : StepOk st (maybe_gather G st g f).1 := by
  by_cases h : memGathersDone st.gathers_done g f
  · rw [maybe_gather_hit G h]
    exact StepOk.rfl st
  · rw [Bool.not_eq_true] at h
    rw [maybe_gather_miss_state G h]
    by_cases hv : validateKwargnames G.gatherer_kwargnames
        (mergeKwargs G.gatherer_kwargs f.gatherer_kwargset)
    · rw [if_neg (by simp [hv])]
      refine StepOk.trans (stepOk_mark_and_log h) ?_
      exact stepOk_addYieldsLoop f _ _
    · rw [if_pos (by simp [hv])]
      refine ⟨⟨[(g, f)], rfl⟩, ⟨[], by simp⟩, ⟨[], by simp⟩, ?_⟩
      rintro ⟨hmem, hpair⟩
      exact ⟨fun e he => memKey_mono _ (hmem e he), hpair⟩

/-- Every engine function, at every fuel, performs a `StepOk` step from its
input state to its output state. -/
theorem engineStepOk : ∀ fuel : Nat,
    (∀ (G : Gathering) (ps : Pathset) (f : Focus) (st : GState),
        StepOk st (gather_by_pathset G fuel ps f st).1) ∧
    (∀ (G : Gathering) (entries : PathEntries) (f : Focus) (st : GState),
        StepOk st (gatherEntriesLoop G fuel entries f st).1) ∧
    (∀ (G : Gathering) (sub : Pathset) (objs : List RdfObj) (st : GState),
        StepOk st (gatherObjsLoop G fuel sub objs st).1) ∧
    (∀ (G : Gathering) (ps : Pathset) (o : RdfObj) (st : GState),
        StepOk st (gather_thru_object G fuel ps o st).1) ∧
    (∀ (G : Gathering) (ps : Pathset) (b : Twoples) (st : GState),
        StepOk st (gatherTwoplesLoop G fuel ps b st).1) ∧
    (∀ (G : Gathering) (f : Focus) (preds : List String) (st : GState),
        StepOk st (gather_predicate_iris G fuel f preds st).1) ∧
    (∀ (G : Gathering) (gs : List Nat) (f : Focus) (st : GState),
        StepOk st (gatherersLoop G fuel gs f st).1) := by
  intro fuel
  induction fuel with
  | zero =>
      exact ⟨fun G ps f st => StepOk.rfl st, fun G entries f st => StepOk.rfl st,
        fun G sub objs st => StepOk.rfl st, fun G ps o st => StepOk.rfl st,
        fun G ps b st => StepOk.rfl st, fun G f preds st => StepOk.rfl st,
        fun G gs f st => StepOk.rfl st⟩
  | succ fuel ih =>
      obtain ⟨ihGBP, ihEL, ihOL, ihGTO, ihTL, ihGPI, ihGL⟩ := ih
      refine ⟨?_, ?_, ?_, ?_, ?_, ?_, ?_⟩
      · intro G ps f st
        simp only [gather_by_pathset]
        rcases hgpi : gather_predicate_iris G fuel f ps.entries.keys st
          with ⟨st1, e1⟩
        have h1 := ihGPI G f ps.entries.keys st
        rw [hgpi] at h1
        cases e1 with
        | some e => exact h1
        | none => exact h1.trans (ihEL G ps.entries f st1)
      · intro G entries f st
        simp only [gatherEntriesLoop]
        cases entries with
        | nil => exact StepOk.rfl st
        | cons pred sub rest =>
            dsimp only
            by_cases hemp : sub.isEmpty
            · rw [if_pos hemp]
              exact ihEL G rest f st
            · rw [if_neg hemp]
              rcases hol : gatherObjsLoop G fuel sub
                  (cachePeekFocus st.tripledict fuel f (pathsetOne pred)) st
                with ⟨st1, e1⟩
              have h1 := ihOL G sub
                (cachePeekFocus st.tripledict fuel f (pathsetOne pred)) st
              rw [hol] at h1
              cases e1 with
              | some e => exact h1
              | none => exact h1.trans (ihEL G rest f st1)
      · intro G sub objs st
        simp only [gatherObjsLoop]
        cases objs with
        | nil => exact StepOk.rfl st
        | cons o rest =>
            dsimp only
            rcases hto : gather_thru_object G fuel sub o st with ⟨st1, e1⟩
            have h1 := ihGTO G sub o st
            rw [hto] at h1
            cases e1 with
            | some e => exact h1
            | none => exact h1.trans (ihOL G sub rest st1)
      · intro G ps o st
        simp only [gather_thru_object]
        cases o with
        | iri s =>
            dsimp only
            cases hres : get_focus_by_iri st.tripledict fuel s with
            | error e => exact StepOk.rfl st
            | ok f' =>
                dsimp only
                exact (stepOk_add_focus st f').trans
                  (ihGBP G ps f' (add_focus st f'))
        | blank b =>
            dsimp only
            by_cases hc : is_container b
            · rw [if_pos hc]
              exact ihOL G ps (container_objects b) st
            · rw [if_neg hc]
              exact ihTL G ps b st
        | litInt n => exact StepOk.rfl st
        | lit v l => exact StepOk.rfl st
      · intro G ps b st
        simp only [gatherTwoplesLoop]
        cases b with
        | nil => exact StepOk.rfl st
        | cons pred o rest =>
            dsimp only
            cases hget : ps.entries.get pred with
            | none =>
                dsimp only
                exact ihTL G ps rest st
            | some sub =>
                dsimp only
                by_cases hemp : sub.isEmpty
                · rw [if_pos hemp]
                  exact ihTL G ps rest st
                · rw [if_neg hemp]
                  rcases hto : gather_thru_object G fuel sub o st with ⟨st1, e1⟩
                  have h1 := ihGTO G sub o st
                  rw [hto] at h1
                  cases e1 with
                  | some e => exact h1
                  | none => exact h1.trans (ihTL G ps rest st1)
      · intro G f preds st
        simp only [gather_predicate_iris]
        exact (stepOk_add_focus st f).trans
          (ihGL G (G.signup.get_gatherers f preds) f (add_focus st f))
      · intro G gs f st
        simp only [gatherersLoop]
        cases gs with
        | nil => exact StepOk.rfl st
        | cons g rest =>
            dsimp only
            rcases hmg : maybe_gather G st g f with ⟨st1, e1⟩
            have h1 := stepOk_maybe_gather G st g f
            rw [hmg] at h1
            cases e1 with
            | some e => exact h1
            | none => exact h1.trans (ihGL G rest f st1)

/-- One `ask` is a `StepOk` step. -/
theorem stepOk_ask (G : Gathering) (fuel : Nat) (ps : Pathset) (f : Focus)
    (st : GState) : StepOk st (G.ask fuel ps f st).2.1 := by
  unfold Gathering.ask
  rcases hgbp : gather_by_pathset G fuel ps f st with ⟨st1, e1⟩
  have h1 := (engineStepOk fuel).1 G ps f st
  rw [hgbp] at h1
  cases e1 with
  | some e => exact h1
  | none => exact h1

/-- A sequence of `ask`s is a `StepOk` step. -/
theorem stepOk_runAsks (G : Gathering) (fuel : Nat) :
    ∀ (ops : List (Pathset × Focus)) (st : GState),
      StepOk st (runAsks G fuel ops st)
  | [], st => StepOk.rfl st
  | op :: rest, st => by
      have h1 := stepOk_ask G fuel op.1 op.2 st
      have h2 := stepOk_runAsks G fuel rest (G.ask fuel op.1 op.2 st).2.1
      simpa [runAsks] using h1.trans h2

end MemoInvariant

section ClaimC1

/-- The gathering for the memo-key scenario: gatherer 0 is registered for
predicate "p:P" and yields nothing; the organizer expects kwargname "k". -/
def exG1 : Gathering :=
  { signup := Signup.add_gatherer .empty 0 ["p:P"] []
    run := fun _ _ _ => ([], false)
    gatherer_kwargnames := ["k"]
    gatherer_kwargs := [("k", "w")] }

/-- A focus with no per-focus kwargs. -/
def exFA : Focus := ⟨["a:f"], [.iri "a:T"], []⟩

/-- The same entity and types, but overriding kwarg "k". -/
def exFB : Focus := ⟨["a:f"], [.iri "a:T"], [("k", "v")]⟩

/-- C1 counterexample: across one cache instance, two `ask`s with foci that
have equal identifier-sets and equal type-sets (differing only in their
`gatherer_kwargset`) invoke the same registered gatherer twice — `Focus`
equality, the memo key, compares all three fields, not just the
identifier-set and type-set. -/
theorem C1_counterexample :
    (runAsks exG1 20 [(pathsetOne "p:P", exFA), (pathsetOne "p:P", exFB)]
        GState.empty).invocations = [(0, exFA), (0, exFB)] ∧
      setEqB exFA.iris exFB.iris = true ∧
      setEqB exFA.type_iris exFB.type_iris = true ∧
      exFA ≠ exFB := by
  decide

/-- C1 (amended): for every gathering configuration and every sequence of
`ask` operations against one fresh cache instance, no two logged gatherer
invocations share a memo key — a `(gatherer, Focus)` pair runs at most
once, where two `Focus` values count as the same memo key exactly when
their identifier-sets, type-sets AND gatherer-kwargsets are all equal
(structural frozenset equality, regardless of construction). -/
theorem C1_memoized_at_most_once (G : Gathering) (fuel : Nat)
    (ops : List (Pathset × Focus)) :
    List.Pairwise (fun a b => keyEq a b = false)
      (runAsks G fuel ops GState.empty).invocations := by
  have h := stepOk_runAsks G fuel ops GState.empty
  have hgood : Good GState.empty := by
    constructor
    · intro e he
      simp [GState.empty] at he
    · exact List.Pairwise.nil
  exact (h.2.2.2 hgood).2

end ClaimC1

section ClaimC10

/-- The gathering for the failing-gatherer scenario: gatherer 0 yields one
fact and then raises. -/
def exG10 : Gathering :=
  { signup := Signup.add_gatherer .empty 0 ["p:P"] []
    run := fun _ _ _ => ([.two (some "p:P") (some (.objO (.litInt 1)))], true)
    gatherer_kwargnames := []
    gatherer_kwargs := [] }

/-- The first ask: the gatherer raises partway, the exception propagates. -/
def ex10r1 : List RdfObj × GState × Option GErr :=
  exG10.ask 20 (pathsetOne "p:P") exF1 .empty

/-- The state left by the failed first ask. -/
def ex10st1 : GState := ex10r1.2.1

/-- The second ask with the same arguments on the same cache. -/
def ex10r2 : List RdfObj × GState × Option GErr :=
  exG10.ask 20 (pathsetOne "p:P") exF1 ex10st1

/-- C10: `(gatherer, focus)` is recorded in the memo before the gatherer
body is consumed, so — generally — once a pair is memoized, no later
ask/pull on the same cache logs another invocation with that memo key; and
concretely, when a gatherer raises partway through its iteration, the ask
propagates the exception, the triples yielded before the exception remain
in the graph, the pair stays memoized, and a repeated ask re-invokes
nothing, succeeds, and answers from the kept triples. -/
theorem C10_failed_gather_never_retried :
    (∀ (G : Gathering) (st : GState) (g : Nat) (f : Focus),
        memKey (maybe_gather G st g f).1.gathers_done (g, f) = true) ∧
    (∀ (G : Gathering) (fuel : Nat) (ops : List (Pathset × Focus))
        (st : GState) (k : Nat × Focus),
        memKey st.gathers_done k = true →
        ∀ e ∈ (runAsks G fuel ops st).invocations,
          keyEq e k = true → e ∈ st.invocations) ∧
    (ex10r1.2.2 = some .gathererRaised ∧
      RdfObj.litInt 1 ∈
        (assocGet ((assocGet ex10st1.tripledict "a:1").getD []) "p:P").getD [] ∧
      memKey ex10st1.gathers_done (0, exF1) = true ∧
      ex10r2.2.1.invocations = ex10st1.invocations ∧
      ex10r2.2.2 = none ∧ ex10r2.1 = [.litInt 1]) := by
  refine ⟨maybe_gather_marks, ?_, by decide⟩
  intro G fuel ops st k hk e he hkey
  obtain ⟨_, _, ⟨i, hi, hfresh⟩, _⟩ := stepOk_runAsks G fuel ops st
  rw [hi] at he
  rcases List.mem_append.1 he with h1 | h2
  · exact h1
  · exfalso
    have hf := hfresh e h2
    obtain ⟨d, hd, hdk⟩ := (memKey_iff _ _).1 hk
    have : memKey st.gathers_done e = true :=
      (memKey_iff _ _).2 ⟨d, hd, keyEq_trans hdk (keyEq_symm hkey)⟩
    rw [this] at hf
    cases hf

/-- Witness for C10's no-retry clause at the failed-gather state: the
memoized pair `(0, exF1)` gets no new invocation in a later ask. -/
theorem C10_failed_gather_never_retried_witness :
    memKey ex10st1.gathers_done (0, exF1) = true ∧
      (∀ e ∈ (runAsks exG10 20 [(pathsetOne "p:P", exF1)]
            ex10st1).invocations,
        keyEq e (0, exF1) = true → e ∈ ex10st1.invocations) :=
  ⟨by decide,
    C10_failed_gather_never_retried.2.1 exG10 20 [(pathsetOne "p:P", exF1)]
      ex10st1 (0, exF1) (by decide)⟩

end ClaimC10

section ClaimC3

/-- A pathset whose every top-level entry has an empty nested pathset
("fetch direct values only", no recursive step). -/
def PathEntries.allTerminal : PathEntries → Bool
  | .nil => true
  | .cons _ sub rest => sub.isEmpty && rest.allTerminal

/-- The error component of `gatherEntriesLoop` over all-terminal entries:
it depends only on the fuel and the entry count. -/
def flatLoopErr : Nat → PathEntries → Option GErr
  | 0, _ => some .fuelOut
  | _ + 1, .nil => none
  | fuel + 1, .cons _ _ rest => flatLoopErr fuel rest

/-- The error component of `gatherersLoop` when every gatherer is skipped:
it depends only on the fuel and the gatherer count. -/
def gsLoopErr : Nat → List Nat → Option GErr
  | 0, _ => some .fuelOut
  | _ + 1, [] => none
  | fuel + 1, _ :: rest => gsLoopErr fuel rest

/-- The error component of a `gather_predicate_iris` whose every gatherer
is skipped. -/
def gpiErr : Nat → List Nat → Option GErr
  | 0, _ => some .fuelOut
  | fuel + 1, gs => gsLoopErr fuel gs

theorem gatherEntriesLoop_flat (G : Gathering) :
    ∀ (fuel : Nat) (entries : PathEntries) (f : Focus) (st : GState),
      entries.allTerminal = true →
      gatherEntriesLoop G fuel entries f st = (st, flatLoopErr fuel entries)
  | 0, entries, f, st, h => by simp [gatherEntriesLoop, flatLoopErr]
  | fuel + 1, .nil, f, st, h => by simp [gatherEntriesLoop, flatLoopErr]
  | fuel + 1, .cons pred sub rest, f, st, h => by
      simp only [PathEntries.allTerminal, Bool.and_eq_true] at h
      simp only [gatherEntriesLoop, flatLoopErr]
      rw [if_pos h.1]
      exact gatherEntriesLoop_flat G fuel rest f st h.2

theorem gatherersLoop_skips_marked (G : Gathering) :
    ∀ (fuel : Nat) (gs : List Nat) (f : Focus) (st : GState),
      (∀ g ∈ gs, memKey st.gathers_done (g, f) = true) →
      gatherersLoop G fuel gs f st = (st, gsLoopErr fuel gs)
  | 0, gs, f, st, h => by simp [gatherersLoop, gsLoopErr]
  | fuel + 1, [], f, st, h => by simp [gatherersLoop, gsLoopErr]
  | fuel + 1, g :: rest, f, st, h => by
      simp only [gatherersLoop, gsLoopErr]
      rw [maybe_gather_hit G
        (by rw [memGathersDone_eq]; exact h g (List.mem_cons_self g rest))]
      exact gatherersLoop_skips_marked G fuel rest f st
        (fun g' hg' => h g' (List.mem_cons_of_mem g hg'))

theorem gatherersLoop_success_err (G : Gathering) :
    ∀ (fuel : Nat) (gs : List Nat) (f : Focus) (st st' : GState),
      gatherersLoop G fuel gs f st = (st', none) →
      gsLoopErr fuel gs = none
  | 0, gs, f, st, st', h => by
      simp only [gatherersLoop] at h
      cases h
  | fuel + 1, [], f, st, st', h => rfl
  | fuel + 1, g :: rest, f, st, st', h => by
      simp only [gatherersLoop] at h
      rcases hmg : maybe_gather G st g f with ⟨st1, e1⟩
      rw [hmg] at h
      cases e1 with
      | some e =>
          dsimp only at h
          cases h
      | none =>
          dsimp only at h
          exact gatherersLoop_success_err G fuel rest f st1 st' h

theorem gatherersLoop_marks_all (G : Gathering) :
    ∀ (fuel : Nat) (gs : List Nat) (f : Focus) (st st' : GState),
      gatherersLoop G fuel gs f st = (st', none) →
      ∀ g ∈ gs, memKey st'.gathers_done (g, f) = true
  | 0, gs, f, st, st', h => by
      simp only [gatherersLoop] at h
      cases h
  | fuel + 1, [], f, st, st', h => by
      intro g hg
      cases hg
  | fuel + 1, g :: rest, f, st, st', h => by
      simp only [gatherersLoop] at h
      rcases hmg : maybe_gather G st g f with ⟨st1, e1⟩
      rw [hmg] at h
      cases e1 with
      | some e =>
          dsimp only at h
          cases h
      | none =>
          dsimp only at h
          intro g' hg'
          rcases List.mem_cons.1 hg' with rfl | hg''
          · have hmarked := maybe_gather_marks G st g' f
            rw [hmg] at hmarked
            obtain ⟨⟨d, hd⟩, _, _, _⟩ := (engineStepOk fuel).2.2.2.2.2.2 G rest f st1
            rw [h] at hd
            rw [hd]
            exact memKey_mono d hmarked
          · exact gatherersLoop_marks_all G fuel rest f st1 st' h g' hg''

theorem memFocusSet_append {l1 : List Focus} (l2 : List Focus) {f : Focus}
    (h : memFocusSet l1 f = true) : memFocusSet (l1 ++ l2) f = true := by
  simp only [memFocusSet, List.any_append, Bool.or_eq_true] at h ⊢
  exact Or.inl h

theorem add_focus_self_mem (st : GState) (f : Focus) :
    memFocusSet (add_focus st f).focus_set f = true := by
  unfold add_focus
  by_cases h : memFocusSet st.focus_set f
  · rw [if_pos h]
    exact h
  · rw [if_neg h]
    simp only [memFocusSet, List.any_append, Bool.or_eq_true]
    right
    simp [pyEq_refl]

theorem add_focus_hit {st : GState} {f : Focus}
    (h : memFocusSet st.focus_set f = true) : add_focus st f = st := by
  unfold add_focus
  rw [if_pos h]

theorem gather_predicate_iris_post (G : Gathering) (fuel : Nat) (f : Focus)
    (preds : List String) (st st' : GState)
    (h : gather_predicate_iris G fuel f preds st = (st', none)) :
    memFocusSet st'.focus_set f = true ∧
      ∀ g ∈ G.signup.get_gatherers f preds,
        memKey st'.gathers_done (g, f) = true := by
  cases fuel with
  | zero =>
      simp only [gather_predicate_iris] at h
      cases h
  | succ fuel =>
      simp only [gather_predicate_iris] at h
      refine ⟨?_, gatherersLoop_marks_all G fuel _ f _ st' h⟩
      obtain ⟨_, ⟨fs, hfs⟩, _, _⟩ :=
        (engineStepOk fuel).2.2.2.2.2.2 G (G.signup.get_gatherers f preds) f
          (add_focus st f)
      rw [h] at hfs
      rw [hfs]
      exact memFocusSet_append fs (add_focus_self_mem st f)

theorem gather_predicate_iris_success_err (G : Gathering) (fuel : Nat)
    (f : Focus) (preds : List String) (st st' : GState)
    (h : gather_predicate_iris G fuel f preds st = (st', none)) :
    gpiErr fuel (G.signup.get_gatherers f preds) = none := by
  cases fuel with
  | zero =>
      simp only [gather_predicate_iris] at h
      cases h
  | succ fuel =>
      simp only [gather_predicate_iris] at h
      exact gatherersLoop_success_err G fuel _ f _ st' h

theorem gather_predicate_iris_rerun (G : Gathering) (fuel : Nat) (f : Focus)
    (preds : List String) (st : GState)
    (hf : memFocusSet st.focus_set f = true)
    (hm : ∀ g ∈ G.signup.get_gatherers f preds,
        memKey st.gathers_done (g, f) = true) :
    gather_predicate_iris G fuel f preds st =
      (st, gpiErr fuel (G.signup.get_gatherers f preds)) := by
  cases fuel with
  | zero => simp [gather_predicate_iris, gpiErr]
  | succ fuel =>
      simp only [gather_predicate_iris, gpiErr]
      rw [add_focus_hit hf]
      exact gatherersLoop_skips_marked G fuel _ f st hm

/-- C3 (amended): for a path specification whose every top-level branch is
terminal (no nested non-empty sub-specification), a second
`__gather_by_pathset` with identical arguments is a no-op: it returns the
exact same state — it invokes no gatherer and inserts no triple.  (With
nested branches this fails: see the counterexample.) -/
theorem C3_pull_idempotent_flat (G : Gathering) (fuel : Nat) (ps : Pathset)
    (f : Focus) (st st1 : GState)
    (hflat : ps.entries.allTerminal = true)
    (h1 : gather_by_pathset G fuel ps f st = (st1, none)) :
    gather_by_pathset G fuel ps f st1 = (st1, none) := by
  cases fuel with
  | zero =>
      simp only [gather_by_pathset] at h1
      cases h1
  | succ fuel =>
      simp only [gather_by_pathset] at h1 ⊢
      rcases hgpi : gather_predicate_iris G fuel f ps.entries.keys st
        with ⟨sta, ea⟩
      rw [hgpi] at h1
      cases ea with
      | some e =>
          dsimp only at h1
          cases h1
      | none =>
          dsimp only at h1
          rw [gatherEntriesLoop_flat G fuel ps.entries f sta hflat] at h1
          have hsta : sta = st1 := congrArg Prod.fst h1
          have herr : flatLoopErr fuel ps.entries = none :=
            congrArg Prod.snd h1
          subst hsta
          obtain ⟨hfoc, hmarks⟩ :=
            gather_predicate_iris_post G fuel f ps.entries.keys st sta hgpi
          have hrerun := gather_predicate_iris_rerun G fuel f ps.entries.keys
            sta hfoc hmarks
          rw [hrerun,
            gather_predicate_iris_success_err G fuel f ps.entries.keys st sta
              hgpi]
          dsimp only
          rw [gatherEntriesLoop_flat G fuel ps.entries f sta hflat, herr]

/-- The gathering of the idempotence counterexample: gatherer 0 (for
predicate "p:P") introduces entity "a:x" with a type fact; gatherer 1 (for
predicate "p:Q") yields a count of its focus's synonym identifiers and an
`owl:sameAs` fact about it. -/
def exG3 : Gathering :=
  { signup := Signup.add_gatherer (Signup.add_gatherer .empty 0 ["p:P"] [])
      1 ["p:Q"] []
    run := fun g f _ =>
      if g = 0 then
        ([.three (some (.iriS "a:x")) (some RDF_type)
            (some (.objO (.iri "a:T"))),
          .two (some "p:P") (some (.objO (.iri "a:x")))], false)
      else
        ([.two (some "p:Q") (some (.objO (.litInt f.iris.length))),
          .two (some OWL_sameAs) (some (.objO (.iri "a:s")))], false)
    gatherer_kwargnames := []
    gatherer_kwargs := [] }

/-- The nested path specification `{p:P: {p:Q: {}}}`. -/
def exPs3 : Pathset := .node (.cons "p:P" (pathsetOne "p:Q") .nil)

/-- The starting focus of the idempotence counterexample. -/
def exF3 : Focus := ⟨["a:f0"], [.iri "a:T"], []⟩

/-- The cache state after the first pull. -/
def ex3st1 : GState := (gather_by_pathset exG3 30 exPs3 exF3 .empty).1

/-- The cache state after a second, identical pull on the same cache. -/
def ex3st2 : GState := (gather_by_pathset exG3 30 exPs3 exF3 ex3st1).1

/-- C3 counterexample: with a nested path specification, pulling twice is
not the same as pulling once — during the second pull the engine re-derives
the intermediate entity's focus from the now-enriched graph (it gained an
`owl:sameAs` synonym), that focus is a fresh memo key, gatherer 1 is
re-invoked, and a new triple (the new synonym count) is inserted. -/
theorem C3_counterexample :
    (gather_by_pathset exG3 30 exPs3 exF3 .empty).2 = none ∧
      (gather_by_pathset exG3 30 exPs3 exF3 ex3st1).2 = none ∧
      ex3st2.tripledict ≠ ex3st1.tripledict ∧
      ex3st1.invocations.length = 2 ∧
      ex3st2.invocations.length = 3 := by
  decide

/-- Witness for C3 (amended) at a concrete flat pathset: the 1-level ask of
the snapshot scenario, pulled a second time, returns the exact same state
with no error. -/
theorem C3_pull_idempotent_flat_witness :
    (pathsetOne "p:P").entries.allTerminal = true ∧
      gather_by_pathset exG8 20 (pathsetOne "p:P") exF1 .empty =
        (ex8st1, none) ∧
      gather_by_pathset exG8 20 (pathsetOne "p:P") exF1 ex8st1 =
        (ex8st1, none) :=
  ⟨by decide, by decide,
    C3_pull_idempotent_flat exG8 20 (pathsetOne "p:P") exF1 .empty ex8st1
      (by decide) (by decide)⟩

end ClaimC3

/-- The subject iri under which `pull`'s recursive step records and reads
facts about a resolved entity: the `single_iri()` of the focus that
`get_focus_by_iri` would build (the shortest of the iri and its recorded
`owl:sameAs` synonyms). -/
def specFocusIri (g : Tripledict) (fuel : Nat) (s : String) : String :=
  minByLen ((s :: (cacheQ g fuel s (pathsetOne OWL_sameAs)).filterMap
    (fun o => match o with | .iri s' => some s' | _ => none)).dedup)

mutual
/-- The peek the spec describes (for comparison with the implemented
`_iter_twopledict_objects` peek): the values reachable by walking the
pathset with the identical traversal logic as `pull`'s recursive step 3 —
followed below in `peekSpecOne` — but without invoking any gatherer. -/
def peekSpecEntries (g : Tripledict) (fuel : Nat) (tw : Twopledict)
    (entries : PathEntries) : List RdfObj :=
  match fuel with
  | 0 => []
  | fuel + 1 =>
      match entries with
      | .nil => []
      | .cons pred sub rest =>
          (if sub.isEmpty then (assocGet tw pred).getD []
           else peekSpecObjs g fuel ((assocGet tw pred).getD []) sub) ++
            peekSpecEntries g fuel tw rest

/-- Spec-peek over each object of an object set (more path remaining). -/
def peekSpecObjs (g : Tripledict) (fuel : Nat) (objs : List RdfObj)
    (sub : Pathset) : List RdfObj :=
  match fuel with
  | 0 => []
  | fuel + 1 =>
      match objs with
      | [] => []
      | o :: rest => peekSpecOne g fuel sub o ++ peekSpecObjs g fuel rest sub

/-- Spec-peek through one object, with `pull` step 3's logic: an identifier
resolves to a focus only when it has recorded type facts (otherwise the
branch yields nothing further); a recognized container is transparently
unwrapped, its items walked with the same nested pathset; a plain record is
walked by its own twoples against the pathset's matching keys; other values
are terminal. -/
def peekSpecOne (g : Tripledict) (fuel : Nat) (sub : Pathset) (o : RdfObj) :
    List RdfObj :=
  match fuel with
  | 0 => []
  | fuel + 1 =>
      match o with
      | .iri s =>
          if ((cacheQ g fuel s (pathsetOne RDF_type)).dedup).isEmpty then []
          else
            peekSpecEntries g fuel
              ((assocGet g (specFocusIri g fuel s)).getD []) sub.entries
      | .blank b =>
          if is_container b then peekSpecObjs g fuel (container_objects b) sub
          else peekSpecTwoples g fuel sub b
      | _ => []

/-- Spec-peek through a plain record's twoples. -/
def peekSpecTwoples (g : Tripledict) (fuel : Nat) (sub : Pathset)
    (b : Twoples) : List RdfObj :=
  match fuel with
  | 0 => []
  | fuel + 1 =>
      match b with
      | .nil => []
      | .cons pred o rest =>
          (match sub.entries.get pred with
           | none => []
           | some nx => if nx.isEmpty then [o] else peekSpecOne g fuel nx o) ++
            peekSpecTwoples g fuel sub rest
end

/-- Spec-peek from a subject iri. -/
def peekSpecQ (g : Tripledict) (fuel : Nat) (subj : String) (ps : Pathset) :
    List RdfObj :=
  peekSpecEntries g fuel ((assocGet g subj).getD []) ps.entries

section ClaimC4

/-- A sequence container blank node holding the iri "a:B". -/
def exSeqB : Twoples :=
  .cons RDF_type (.iri RDF_Seq)
    (.cons "http://www.w3.org/1999/02/22-rdf-syntax-ns#_1" (.iri "a:B") .nil)

/-- Graph: "a:A" —p:P→ [container with item "a:B"]; "a:B" has a type fact
and a p:Q value. -/
def exG4a : Tripledict :=
  [("a:A", [("p:P", [.blank exSeqB])]),
   ("a:B", [("p:Q", [.litInt 7]), (RDF_type, [.iri "a:T"])])]

/-- Graph: "a:A" —p:P→ "a:C"; "a:C" has a p:Q value but no type facts. -/
def exG4b : Tripledict :=
  [("a:A", [("p:P", [.iri "a:C"])]),
   ("a:C", [("p:Q", [.litInt 9])])]

/-- The nested pathset `{p:P: {p:Q: {}}}` of the peek scenarios. -/
def exPs4 : Pathset := .node (.cons "p:P" (pathsetOne "p:Q") .nil)

set_option maxRecDepth 100000 in
/-- C4 counterexample: the implemented peek does not traverse like `pull`'s
step 3.  Through a container, pull's logic transparently unwraps and
reaches the item's values while the implemented peek walks the container
as a plain record (and finds nothing under "p:Q"); through an identifier
with no recorded type facts, pull's logic stops (no usable focus) while
the implemented peek happily follows the graph entry. -/
theorem C4_counterexample :
    cacheQ exG4a 40 "a:A" exPs4 ≠ peekSpecQ exG4a 40 "a:A" exPs4 ∧
      cacheQ exG4b 40 "a:A" exPs4 ≠ peekSpecQ exG4b 40 "a:A" exPs4 := by
  decide

theorem peekObjsWalk_nilObjs (g : Tripledict) (sub : Pathset) :
    ∀ fuel : Nat, peekObjsWalk g fuel [] sub = []
  | 0 => rfl
  | fuel + 1 => rfl

theorem iterTwopledictObjects_empty (g : Tripledict) :
    ∀ (fuel : Nat) (entries : PathEntries),
      iterTwopledictObjects g fuel [] entries = []
  | fuel, .nil => by simp [iterTwopledictObjects]
  | 0, .cons pred sub rest => by simp [iterTwopledictObjects]
  | fuel + 1, .cons pred sub rest => by
      simp only [iterTwopledictObjects, assocGet, Option.getD_none,
        peekObjsWalk_nilObjs, iterTwopledictObjects_empty g fuel rest]
      simp

/-- C4 (amended): `peek` is a pure read — `ask` returns exactly the state
`pull` left, the peek itself adding nothing, invoking no gatherer, and
never raising; an identifier with no entry in the graph yields nothing
further past it.  But its traversal is not identical to `pull`'s step 3:
on the container scenario the implemented peek yields nothing (the
container is walked as a plain record), and on the untyped-identifier
scenario it yields the value that pull's focus-resolving logic would not
reach. -/
theorem C4_peek_pure_read :
    (∀ (G : Gathering) (fuel : Nat) (ps : Pathset) (f : Focus) (st : GState),
        (G.ask fuel ps f st).2.1 = (gather_by_pathset G fuel ps f st).1) ∧
    (∀ (g : Tripledict) (fuel : Nat) (entries : PathEntries),
        iterTwopledictObjects g fuel [] entries = []) ∧
    (∀ (g : Tripledict) (fuel : Nat) (s : String) (ps : Pathset),
        assocGet g s = none → cacheQ g fuel s ps = []) ∧
    cacheQ exG4a 20 "a:A" exPs4 = [] ∧
    cacheQ exG4b 20 "a:A" exPs4 = [.litInt 9] := by
  refine ⟨?_, iterTwopledictObjects_empty, ?_, by decide, by decide⟩
  · intro G fuel ps f st
    unfold Gathering.ask
    rcases hgbp : gather_by_pathset G fuel ps f st with ⟨st1, e1⟩
    cases e1 with
    | some e => rfl
    | none => rfl
  · intro g fuel s ps h
    unfold cacheQ
    rw [h]
    exact iterTwopledictObjects_empty g fuel ps.entries

/-- Witness for C4's unresolved-identifier clause at a concrete graph: an
identifier absent from the graph peeks to nothing. -/
theorem C4_peek_pure_read_witness :
    assocGet exG4b "a:zz" = none ∧ cacheQ exG4b 20 "a:zz" exPs4 = [] :=
  ⟨by decide, C4_peek_pure_read.2.2.1 exG4b 20 "a:zz" exPs4 (by decide)⟩

end ClaimC4

end PrimitiveMetadata
